/-
Verification of the datev-lint file engine against its specification.

Shallow embedding of the Python sources under `src/datev_lint/` into Lean:
pure functions become Lean functions, the filesystem becomes an explicit
map from paths to byte lists, Python `int`/`str` helpers are modelled over
`Nat`/`String`, and fallible code returns `Option`.  Error message strings
(Python f-strings) are elided from the error model; error codes, severities
and locations are kept, which is what the claims talk about.
-/
import Mathlib

namespace DatevLint

/-! ## Python string/int helpers

Models of the Python built-ins used by the sources: `str.strip()`,
`str.upper()`, `str.isdigit()` and `int(...)`.  Whitespace and digits are
modelled over their ASCII ranges, which is what DATEV files contain. -/

def isPyWhitespace (c : Char) : Bool :=
  c = ' ' || c = '\t' || c = '\n' || c = '\r' || c = '\x0b' || c = '\x0c'

/-- `str.strip()`: drop whitespace from both ends. -/
def pyStrip (s : String) : String :=
  ⟨(s.data.dropWhile isPyWhitespace).reverse.dropWhile isPyWhitespace |>.reverse⟩

/-- `str.upper()` (ASCII letters, all the sources compare against ASCII). -/
def pyUpper (s : String) : String :=
  ⟨s.data.map Char.toUpper⟩

/-- Numeric value of a digit character. -/
def digitVal (c : Char) : Nat := c.toNat - 48

/-- Value of a string of digit characters (used once `isdigit` has passed). -/
def digitsToNat (cs : List Char) : Nat :=
  cs.foldl (fun acc c => acc * 10 + digitVal c) 0

/-- Digit run of a Python `int` literal: digits with single underscores
allowed between digits (`1_0` parses, `_1`, `1_`, `1__0` do not). -/
def pyIntAux : Nat → List Char → Option Nat
  | acc, [] => some acc
  | acc, c :: rest =>
    if c.isDigit then pyIntAux (acc * 10 + digitVal c) rest
    else if c = '_' then
      match rest with
      | d :: rest' => if d.isDigit then pyIntAux (acc * 10 + digitVal d) rest' else none
      | [] => none
    else none

def pyIntDigits : List Char → Option Nat
  | [] => none
  | c :: rest => if c.isDigit then pyIntAux (digitVal c) rest else none

/-- Python `int(s)` on a string: strip whitespace, optional sign, digits. -/
def pyInt (s : String) : Option Int :=
  match (pyStrip s).data with
  | '+' :: rest => (pyIntDigits rest).map Int.ofNat
  | '-' :: rest => (pyIntDigits rest).map (fun n => -(n : Int))
  | rest => (pyIntDigits rest).map Int.ofNat

/-! ## Python `datetime.date` model

`datetime.date(year, month, day)` with the proleptic Gregorian calendar:
construction fails (raises `ValueError`) outside `1..9999` years or for an
invalid day of month; comparison is lexicographic on `(year, month, day)`. -/

structure PyDate where
  year : Nat
  month : Nat
  day : Nat
deriving DecidableEq, Repr

def isLeapYear (y : Nat) : Bool :=
  y % 4 = 0 && (y % 100 ≠ 0 || y % 400 = 0)

def daysInMonth (y m : Nat) : Nat :=
  if m = 2 then (if isLeapYear y then 29 else 28)
  else if m = 4 || m = 6 || m = 9 || m = 11 then 30
  else 31

/-- `datetime.date(y, m, d)`, `none` models a `ValueError`. -/
def mkPyDate (y m d : Nat) : Option PyDate :=
  if 1 ≤ y && y ≤ 9999 && 1 ≤ m && m ≤ 12 && 1 ≤ d && d ≤ daysInMonth y m then
    some ⟨y, m, d⟩
  else none

/-- `date.__le__`: lexicographic on (year, month, day). -/
def PyDate.leB (a b : PyDate) : Bool :=
  if a.year ≠ b.year then a.year < b.year
  else if a.month ≠ b.month then a.month < b.month
  else a.day ≤ b.day

theorem PyDate.leB_year_le {a b : PyDate} (h : a.leB b = true) : a.year ≤ b.year := by
  unfold PyDate.leB at h
  split at h
  · exact Nat.le_of_lt (by exact_mod_cast of_decide_eq_true h)
  · omega

theorem mkPyDate_year {y m d : Nat} {dd : PyDate} (h : mkPyDate y m d = some dd) :
    dd.year = y := by
  unfold mkPyDate at h
  split at h
  · cases h; rfl
  · cases h

/-! ## `core/parser/dates.py` : TTMM year derivation -/

inductive DateConfidence where
  | high | medium | ambiguous | failed | unknown
deriving DecidableEq, Repr

structure DerivedDate where
  rawTtmm : String
  day : Nat
  month : Nat
  year : Option Nat
  derivedDate : Option PyDate
  confidence : DateConfidence
  warningCode : Option String := none
deriving DecidableEq, Repr

/-- Day part of a TTMM string, `int(ttmm[:2])`. -/
def ttmmDay (ttmm : String) : Nat := digitsToNat (ttmm.data.take 2)

/-- Month part of a TTMM string, `int(ttmm[2:4])`. -/
def ttmmMonth (ttmm : String) : Nat := digitsToNat ((ttmm.data.drop 2).take 2)

/-- One iteration of the candidate loop of `_derive_from_period`: compose
the date in year `y` and keep it when it constructs and falls inside
`[period_from, period_to]`. -/
def periodCandidate (day month : Nat) (periodFrom periodTo : PyDate) (y : Nat) :
    Option (PyDate × Nat) :=
  match mkPyDate y month day with
  | some d => if periodFrom.leB d && d.leB periodTo then some (d, y) else none
  | none => none

/-- The candidate loop of `_derive_from_period` in the cross-year branch,
run over the two bound years. -/
def periodCandidates (day month : Nat) (periodFrom periodTo : PyDate) :
    List (PyDate × Nat) :=
  [periodFrom.year, periodTo.year].filterMap
    (periodCandidate day month periodFrom periodTo)

/-- `_derive_from_period` (dates.py lines 94-189). -/
def deriveFromPeriod (ttmm : String) (day month : Nat)
    (periodFrom periodTo : PyDate) : DerivedDate :=
  if periodFrom.year = periodTo.year then
    let year := periodFrom.year
    match mkPyDate year month day with
    | some d =>
      if periodFrom.leB d && d.leB periodTo then
        ⟨ttmm, day, month, some year, some d, .high, none⟩
      else
        ⟨ttmm, day, month, some year, some d, .medium, some "DVL-DATE-003"⟩
    | none => ⟨ttmm, day, month, none, none, .failed, some "DVL-DATE-001"⟩
  else
    match periodCandidates day month periodFrom periodTo with
    | [c] => ⟨ttmm, day, month, some c.2, some c.1, .high, none⟩
    | c :: _ :: _ => ⟨ttmm, day, month, some c.2, some c.1, .ambiguous, some "DVL-DATE-002"⟩
    | [] => ⟨ttmm, day, month, none, none, .failed, some "DVL-DATE-003"⟩

/-- `_derive_from_fiscal_year` (dates.py lines 192-225). -/
def deriveFromFiscalYear (ttmm : String) (day month : Nat)
    (fiscalYearStart : PyDate) : DerivedDate :=
  let year :=
    if month < fiscalYearStart.month then fiscalYearStart.year + 1
    else fiscalYearStart.year
  match mkPyDate year month day with
  | some d => ⟨ttmm, day, month, some year, some d, .medium, none⟩
  | none => ⟨ttmm, day, month, none, none, .failed, some "DVL-DATE-001"⟩

/-- `derive_year` (dates.py lines 17-91). -/
def deriveYear (ttmm : String) (fiscalYearStart periodFrom periodTo : Option PyDate) :
    DerivedDate :=
  if ttmm.length ≠ 4 || !(ttmm.data.all Char.isDigit) then
    ⟨ttmm, 0, 0, none, none, .failed, some "DVL-DATE-001"⟩
  else if !(1 ≤ ttmmDay ttmm && ttmmDay ttmm ≤ 31)
       || !(1 ≤ ttmmMonth ttmm && ttmmMonth ttmm ≤ 12) then
    ⟨ttmm, min (ttmmDay ttmm) 31, min (ttmmMonth ttmm) 12, none, none, .failed,
     some "DVL-DATE-001"⟩
  else
    match periodFrom, periodTo with
    | some pf, some pt =>
      deriveFromPeriod ttmm (ttmmDay ttmm) (ttmmMonth ttmm) pf pt
    | _, _ =>
      match fiscalYearStart with
      | some fy => deriveFromFiscalYear ttmm (ttmmDay ttmm) (ttmmMonth ttmm) fy
      | none =>
        ⟨ttmm, ttmmDay ttmm, ttmmMonth ttmm, none, none, .unknown,
         some "DVL-DATE-004"⟩

theorem filterMap_pair {α β : Type} (f : α → Option β) (a b : α) :
    List.filterMap f [a, b] = (f a).toList ++ (f b).toList := by
  cases hfa : f a <;> cases hfb : f b <;>
    simp [List.filterMap_cons, hfa, hfb]

theorem periodCandidate_some {day month : Nat} {pf pt : PyDate} {y : Nat}
    {c : PyDate × Nat} (h : periodCandidate day month pf pt y = some c) :
    mkPyDate y month day = some c.1 ∧ c.2 = y ∧
    pf.leB c.1 = true ∧ c.1.leB pt = true := by
  unfold periodCandidate at h
  split at h
  · rename_i d hm
    split at h
    · rename_i hcond
      cases h
      simp only [Bool.and_eq_true] at hcond
      exact ⟨hm, rfl, hcond.1, hcond.2⟩
    · cases h
  · cases h

/-- Reduction of `derive_year` once the TTMM validation passes. -/
theorem deriveYear_of_valid (ttmm : String) (fy pf pt : Option PyDate)
    (hlen : ttmm.length = 4) (hdig : ttmm.data.all Char.isDigit = true)
    (hd1 : 1 ≤ ttmmDay ttmm) (hd2 : ttmmDay ttmm ≤ 31)
    (hm1 : 1 ≤ ttmmMonth ttmm) (hm2 : ttmmMonth ttmm ≤ 12) :
    deriveYear ttmm fy pf pt =
      match pf, pt with
      | some a, some b => deriveFromPeriod ttmm (ttmmDay ttmm) (ttmmMonth ttmm) a b
      | _, _ =>
        match fy with
        | some f => deriveFromFiscalYear ttmm (ttmmDay ttmm) (ttmmMonth ttmm) f
        | none =>
          ⟨ttmm, ttmmDay ttmm, ttmmMonth ttmm, none, none, .unknown, some "DVL-DATE-004"⟩ := by
  unfold deriveYear
  rw [if_neg, if_neg]
  · simp only [Bool.or_eq_true, Bool.not_eq_true', Bool.and_eq_false_iff,
      decide_eq_false_iff_not, not_or, not_not]
    omega
  · simp [hlen, hdig]

/-- Reduction of `_derive_from_period` in the cross-year branch. -/
theorem deriveFromPeriod_cross (ttmm : String) (day month : Nat) (pf pt : PyDate)
    (hy : pf.year ≠ pt.year) :
    deriveFromPeriod ttmm day month pf pt =
      match periodCandidates day month pf pt with
      | [c] => ⟨ttmm, day, month, some c.2, some c.1, .high, none⟩
      | c :: _ :: _ =>
        ⟨ttmm, day, month, some c.2, some c.1, .ambiguous, some "DVL-DATE-002"⟩
      | [] => ⟨ttmm, day, month, none, none, .failed, some "DVL-DATE-003"⟩ := by
  unfold deriveFromPeriod
  rw [if_neg hy]

/-- C7: for a valid in-range TTMM with both period bounds present in two
different calendar years, `derive_year` keeps only composites that
construct and fall within the period: zero candidates gives FAILED with no
year, one gives HIGH with that candidate's year, several give AMBIGUOUS
with the earlier candidate year (the `period_from` year) selected. -/
theorem claim_C7_cross_year_derivation (ttmm : String) (fy : Option PyDate)
    (pf pt : PyDate)
    (hlen : ttmm.length = 4) (hdig : ttmm.data.all Char.isDigit = true)
    (hd1 : 1 ≤ ttmmDay ttmm) (hd2 : ttmmDay ttmm ≤ 31)
    (hm1 : 1 ≤ ttmmMonth ttmm) (hm2 : ttmmMonth ttmm ≤ 12)
    (hy : pf.year ≠ pt.year) :
    (periodCandidates (ttmmDay ttmm) (ttmmMonth ttmm) pf pt = [] →
       (deriveYear ttmm fy (some pf) (some pt)).confidence = .failed ∧
       (deriveYear ttmm fy (some pf) (some pt)).year = none) ∧
    (∀ c, periodCandidates (ttmmDay ttmm) (ttmmMonth ttmm) pf pt = [c] →
       (deriveYear ttmm fy (some pf) (some pt)).confidence = .high ∧
       (deriveYear ttmm fy (some pf) (some pt)).year = some c.2) ∧
    (∀ c c' rest,
       periodCandidates (ttmmDay ttmm) (ttmmMonth ttmm) pf pt = c :: c' :: rest →
       (deriveYear ttmm fy (some pf) (some pt)).confidence = .ambiguous ∧
       (deriveYear ttmm fy (some pf) (some pt)).year = some pf.year ∧
       pf.year < pt.year) := by
  rw [deriveYear_of_valid ttmm fy (some pf) (some pt) hlen hdig hd1 hd2 hm1 hm2]
  simp only
  rw [deriveFromPeriod_cross ttmm _ _ pf pt hy]
  refine ⟨fun hc => ?_, fun c hc => ?_, fun c c' rest hc => ?_⟩
  · rw [hc]; exact ⟨rfl, rfl⟩
  · rw [hc]; exact ⟨rfl, rfl⟩
  · rw [hc]
    -- analyse how a two-candidate list can arise from the two bound years
    unfold periodCandidates at hc
    rw [filterMap_pair] at hc
    cases hfa : periodCandidate (ttmmDay ttmm) (ttmmMonth ttmm) pf pt pf.year with
    | none =>
      cases hfb : periodCandidate (ttmmDay ttmm) (ttmmMonth ttmm) pf pt pt.year <;>
        rw [hfa, hfb] at hc <;> simp at hc
    | some a =>
      cases hfb : periodCandidate (ttmmDay ttmm) (ttmmMonth ttmm) pf pt pt.year with
      | none => rw [hfa, hfb] at hc; simp at hc
      | some b =>
        -- both candidates survive: the first carries the `period_from` year
        rw [hfa, hfb] at hc
        simp only [Option.toList_some, List.cons_append, List.nil_append,
          List.cons.injEq] at hc
        obtain ⟨hc1, hc2, -⟩ := hc
        obtain ⟨hmf, hyf, -, -⟩ := periodCandidate_some hfa
        obtain ⟨hmt, -, hlt, -⟩ := periodCandidate_some hfb
        have hdty : b.1.year = pt.year := mkPyDate_year hmt
        have h1 : pf.year ≤ b.1.year := PyDate.leB_year_le hlt
        refine ⟨rfl, ?_, ?_⟩
        · show some _ = some pf.year
          rw [← hc1, hyf]
        · omega

/-- Witness for C7 at the spec's own example: `derive_year("1501",
period 2024-10-01 .. 2025-03-31)` → year 2025, confidence HIGH. -/
theorem claim_C7_cross_year_derivation_witness :
    (deriveYear "1501" none (some ⟨2024,10,1⟩) (some ⟨2025,3,31⟩)).confidence
        = .high ∧
    (deriveYear "1501" none (some ⟨2024,10,1⟩) (some ⟨2025,3,31⟩)).year
        = some 2025 := by
  have h := claim_C7_cross_year_derivation "1501" none ⟨2024,10,1⟩ ⟨2025,3,31⟩
    (by decide) (by decide) (by decide) (by decide) (by decide) (by decide) (by decide)
  exact h.2.1 (⟨2025,1,15⟩, 2025) (by decide)

/-- C10 counterexample: with only `period_from` provided, no fiscal year,
and a TTMM that fails range validation, the result is FAILED, not the
UNKNOWN the claim asserts for every such call. -/
theorem claim_C10_counterexample :
    (deriveYear "0000" none (some ⟨2025,1,1⟩) none).confidence
        = DateConfidence.failed ∧
    DateConfidence.failed ≠ DateConfidence.unknown := by decide

/-- C10 (amended): a single period bound is ignored entirely — the result
equals the call with both bounds absent; and for TTMM values that pass the
4-digit and day/month range validation, fiscal absent gives UNKNOWN with no
year while fiscal present is decided by the fiscal-year rule alone. -/
theorem claim_C10_single_bound_ignored (ttmm : String) (fy pf pt : Option PyDate)
    (hone : pf.isSome ≠ pt.isSome) :
    deriveYear ttmm fy pf pt = deriveYear ttmm fy none none ∧
    (ttmm.length = 4 → ttmm.data.all Char.isDigit = true →
     1 ≤ ttmmDay ttmm → ttmmDay ttmm ≤ 31 →
     1 ≤ ttmmMonth ttmm → ttmmMonth ttmm ≤ 12 →
     (fy = none →
        (deriveYear ttmm fy pf pt).confidence = .unknown ∧
        (deriveYear ttmm fy pf pt).year = none) ∧
     (∀ f, fy = some f →
        deriveYear ttmm fy pf pt =
          deriveFromFiscalYear ttmm (ttmmDay ttmm) (ttmmMonth ttmm) f)) := by
  have heq : deriveYear ttmm fy pf pt = deriveYear ttmm fy none none := by
    cases pf <;> cases pt <;> first
      | rfl
      | (exfalso; simp at hone)
  refine ⟨heq, fun hlen hdig hd1 hd2 hm1 hm2 => ?_⟩
  rw [heq, deriveYear_of_valid ttmm fy none none hlen hdig hd1 hd2 hm1 hm2]
  constructor
  · rintro rfl; exact ⟨rfl, rfl⟩
  · rintro f rfl; rfl

/-- Witness for C10: `derive_year("1503", period_from=2025-01-01)` with no
fiscal year behaves like the no-context call: UNKNOWN, no year. -/
theorem claim_C10_single_bound_ignored_witness :
    (deriveYear "1503" none (some ⟨2025,1,1⟩) none).confidence = .unknown ∧
    (deriveYear "1503" none (some ⟨2025,1,1⟩) none).year = none := by
  have h := claim_C10_single_bound_ignored "1503" none (some ⟨2025,1,1⟩) none
    (by decide)
  exact (h.2 (by decide) (by decide) (by decide) (by decide) (by decide) (by decide)).1 rfl

/-! ## `core/fix/models.py` and `core/rules/models.py` : fix-engine data -/

inductive RiskLevel where
  | low | medium | high
deriving DecidableEq, Repr

inductive PatchOperation where
  | setField | normalizeDecimal | truncateOp | sanitizeChars | upperOp
  | deleteRow | splitFile
deriving DecidableEq, Repr

inductive ConflictResolution where
  | firstWins | lastWins | manual
deriving DecidableEq, Repr

/-- `Patch` (fix/models.py lines 59-74); frozen pydantic model, compared
field by field. -/
structure Patch where
  rowNo : Nat
  field : String
  operation : PatchOperation
  oldValue : String
  newValue : String
  risk : RiskLevel
  requiresApproval : Bool
  ruleId : String
  ruleVersion : String
deriving DecidableEq, Repr

/-! ## `core/fix/risk.py` : risk gate -/

/-- The `risk_order` mapping inside `should_apply` (risk.py lines 40-44). -/
def riskOrder : RiskLevel → Nat
  | .low => 0
  | .medium => 1
  | .high => 2

/-- `should_apply` (risk.py lines 29-53). -/
def shouldApply (patch : Patch) (acceptRisk : RiskLevel) : Bool :=
  if patch.requiresApproval && acceptRisk ≠ RiskLevel.high then false
  else riskOrder patch.risk ≤ riskOrder acceptRisk

/-- C6: `should_apply(patch, ceiling)` is true iff the patch's risk is at
most the ceiling under LOW < MEDIUM < HIGH and (`requires_approval` is
false or the ceiling is HIGH). -/
theorem claim_C6_should_apply_iff (patch : Patch) (acceptRisk : RiskLevel) :
    shouldApply patch acceptRisk = true ↔
      (riskOrder patch.risk ≤ riskOrder acceptRisk ∧
       (patch.requiresApproval = false ∨ acceptRisk = RiskLevel.high)) := by
  unfold shouldApply
  cases hap : patch.requiresApproval <;> cases acceptRisk <;>
    cases hr : patch.risk <;> simp [riskOrder, hap]

/-! ## `core/fix/backup.py` : checksum-verified restore

The filesystem is modelled as a map from paths to byte contents; the
SHA-256 of `compute_file_checksum` is an arbitrary deterministic function
of the bytes, passed as a parameter `hash`.  `shutil.copy2` is modelled as
a map update; its possible `OSError`/`SameFileError` failures are an
oracle `copyFails` plus the same-path case (the `except` branch of
`restore_backup`). -/

abbrev FileSystem := String → Option (List Nat)

/-- Python truthiness-aware `a or b` for an optional string (`"" or b = b`). -/
def pyOrStr (a : Option String) (b : String) : String :=
  match a with
  | some s => if s = "" then b else s
  | none => b

/-- Python truthiness of an optional string. -/
def pyTruthy (a : Option String) : Bool :=
  match a with
  | some s => s ≠ ""
  | none => false

structure RollbackResult where
  success : Bool
  filePath : String
  backupPath : String
  oldChecksum : String
  restoredChecksum : String
  expectedChecksum : String
  checksumsMatch : Bool
  error : Option String := none
deriving DecidableEq, Repr

/-- `compute_file_checksum` (planner.py lines 27-33): hash of the file's
bytes, failing when the file does not exist. -/
def computeFileChecksum (hash : List Nat → String) (fs : FileSystem)
    (path : String) : Option String :=
  (fs path).map hash

/-- `BackupManager.restore_backup` (backup.py lines 92-171), returning the
result together with the filesystem after the restore. -/
def restoreBackup (hash : List Nat → String) (fs : FileSystem)
    (backupPath targetPath : String) (expectedChecksum : Option String)
    (verify : Bool) (copyFails : Bool) : RollbackResult × FileSystem :=
  match fs backupPath with
  | none =>
    (⟨false, targetPath, backupPath, "", "", pyOrStr expectedChecksum "",
      false, some "Backup file not found"⟩, fs)
  | some backupBytes =>
    let backupChecksum := hash backupBytes
    if verify && pyTruthy expectedChecksum
        && backupChecksum ≠ pyOrStr expectedChecksum "" then
      (⟨false, targetPath, backupPath, "", backupChecksum,
        pyOrStr expectedChecksum "", false, some "Backup checksum mismatch"⟩, fs)
    else
      let oldChecksum :=
        match fs targetPath with
        | some targetBytes => hash targetBytes
        | none => ""
      if copyFails || backupPath = targetPath then
        (⟨false, targetPath, backupPath, oldChecksum, backupChecksum,
          pyOrStr expectedChecksum backupChecksum, false, some "copy failed"⟩, fs)
      else
        let fs' : FileSystem :=
          fun p => if p = targetPath then some backupBytes else fs p
        let restoredChecksum :=
          match fs' targetPath with
          | some targetBytes => hash targetBytes
          | none => ""
        (⟨true, targetPath, backupPath, oldChecksum, restoredChecksum,
          pyOrStr expectedChecksum backupChecksum,
          restoredChecksum = backupChecksum, none⟩, fs')

/-- C1: whenever `restore_backup` reports success, the reported
`restored_checksum` equals the checksum computed from the backup file (and
the result's own consistency flag is set). -/
theorem claim_C1_rollback_checksum (hash : List Nat → String) (fs : FileSystem)
    (backupPath targetPath : String) (expectedChecksum : Option String)
    (verify copyFails : Bool)
    (hsucc : (restoreBackup hash fs backupPath targetPath expectedChecksum
                verify copyFails).1.success = true) :
    computeFileChecksum hash fs backupPath =
      some (restoreBackup hash fs backupPath targetPath expectedChecksum
              verify copyFails).1.restoredChecksum ∧
    (restoreBackup hash fs backupPath targetPath expectedChecksum
        verify copyFails).1.checksumsMatch = true := by
  unfold restoreBackup at hsucc ⊢
  cases hb : fs backupPath with
  | none => rw [hb] at hsucc; simp at hsucc
  | some backupBytes =>
    rw [hb] at hsucc
    dsimp only at hsucc ⊢
    by_cases h1 : (verify && pyTruthy expectedChecksum
        && decide (hash backupBytes ≠ pyOrStr expectedChecksum "")) = true
    · rw [if_pos h1] at hsucc
      simp at hsucc
    · by_cases h2 : (copyFails || decide (backupPath = targetPath)) = true
      · rw [if_neg h1, if_pos h2] at hsucc
        simp at hsucc
      · refine ⟨?_, ?_⟩
        · rw [if_neg h1, if_neg h2]
          simp [computeFileChecksum, hb]
        · rw [if_neg h1, if_neg h2]
          simp

/-- Witness for C1: a concrete successful rollback on a two-file
filesystem. -/
theorem claim_C1_rollback_checksum_witness :
    computeFileChecksum (fun b => toString (b.foldl (· + ·) 0))
        (fun p => if p = "f.bak.x" then some [1, 2, 3]
                  else if p = "f" then some [9] else none) "f.bak.x" =
      some ((restoreBackup (fun b => toString (b.foldl (· + ·) 0))
        (fun p => if p = "f.bak.x" then some [1, 2, 3]
                  else if p = "f" then some [9] else none)
        "f.bak.x" "f" none true false).1.restoredChecksum) ∧
    ((restoreBackup (fun b => toString (b.foldl (· + ·) 0))
        (fun p => if p = "f.bak.x" then some [1, 2, 3]
                  else if p = "f" then some [9] else none)
        "f.bak.x" "f" none true false).1.checksumsMatch = true) :=
  claim_C1_rollback_checksum _ _ _ _ _ _ _ (by decide)

/-! ## `core/fix/writer.py` : preserve-mode writer

Text is a list of characters; an encoding is a decode/encode pair on byte
lists (Python codecs; strict decode is partial).  The per-line patch
application (`_apply_patches_to_line`, which needs the column mapping and
the operation registry) is a parameter: the round-trip claim is about the
empty patch list, where it is never invoked. -/

/-- Key order of a Python dict built by grouping: first-appearance order. -/
def pyGroupKeys {α κ : Type} [DecidableEq κ] (key : α → κ) (xs : List α) :
    List κ :=
  xs.foldl (fun ks x => if key x ∈ ks then ks else ks ++ [key x]) []

/-- Python dict-grouping: keys in first-appearance order, each key paired
with all elements having that key, in list order (`defaultdict(list)`
insertion semantics). -/
def pyGroupBy {α κ : Type} [DecidableEq κ] (key : α → κ) (xs : List α) :
    List (κ × List α) :=
  (pyGroupKeys key xs).map (fun k => (k, xs.filter (fun x => key x = k)))

/-- `PreserveWriter._split_lines` (writer.py lines 111-137): split text
into `(content, terminator)` pairs, keeping each line's own terminator;
`acc` is the reversed slice accumulated since the last terminator. -/
def splitLinesGo (acc : List Char) : List Char → List (List Char × String)
  | [] => if acc.isEmpty then [] else [(acc.reverse, "")]
  | '\r' :: '\n' :: rest => (acc.reverse, "\r\n") :: splitLinesGo [] rest
  | '\r' :: rest => (acc.reverse, "\r") :: splitLinesGo [] rest
  | '\n' :: rest => (acc.reverse, "\n") :: splitLinesGo [] rest
  | c :: rest => splitLinesGo (c :: acc) rest

def splitLines (text : List Char) : List (List Char × String) :=
  splitLinesGo [] text

/-- The reconstruction step of `PreserveWriter.write`:
`"".join(content + ending for content, ending in lines)`. -/
def joinLines (lines : List (List Char × String)) : List Char :=
  (lines.map (fun ce => ce.1 ++ ce.2.data)).flatten

theorem joinLines_splitLinesGo (text : List Char) (acc : List Char) :
    joinLines (splitLinesGo acc text) = acc.reverse ++ text := by
  induction acc, text using splitLinesGo.induct with
  | case1 acc h => simp [splitLinesGo, h, joinLines, List.isEmpty_iff.mp h]
  | case2 acc h => simp [splitLinesGo, h, joinLines]
  | case3 acc rest ih => simp [splitLinesGo, joinLines] at ih ⊢; simp [ih]
  | case4 acc rest hne ih =>
    rw [show splitLinesGo acc ('\r' :: rest)
          = (acc.reverse, "\r") :: splitLinesGo [] rest from by
      simp [splitLinesGo, hne]]
    simp [joinLines] at ih ⊢
    simp [ih]
  | case5 acc rest ih => simp [splitLinesGo, joinLines] at ih ⊢; simp [ih]
  | case6 acc c rest h1 h2 h3 ih =>
    rw [show splitLinesGo acc (c :: rest) = splitLinesGo (c :: acc) rest from by
      simp [splitLinesGo, h1, h2, h3]]
    rw [ih]
    simp

/-- Split then reconstruct is the identity on text: every line keeps its
own terminator and a missing final terminator stays missing. -/
theorem joinLines_splitLines (text : List Char) :
    joinLines (splitLines text) = text := by
  simpa using joinLines_splitLinesGo text []

/-- A text encoding: strict decode and strict encode on byte lists, both
fallible (`none` models `UnicodeDecodeError` / `UnicodeEncodeError`). -/
structure Encoding where
  decode : List Nat → Option (List Char)
  encode : List Char → Option (List Nat)

/-- `detect_encoding` (encoding.py lines 20-67), restricted to its
deterministic BOM prefix checks (lines 36-41): a UTF-8 BOM gives
`utf-8-sig` and either UTF-16 BOM gives `utf-16`; `none` stands for the
charset-normalizer path taken for BOM-less data, whose library behaviour
is outside this development. -/
def detectEncoding : List Nat → Option String
  | 0xEF :: 0xBB :: 0xBF :: _ => some "utf-8-sig"
  | 0xFF :: 0xFE :: _ => some "utf-16"
  | 0xFE :: 0xFF :: _ => some "utf-16"
  | _ => none

/-- The Windows-1252 0x80-0x9F block: byte/code-point pairs; the bytes
0x81, 0x8D, 0x8F, 0x90, 0x9D are absent (undefined in cp1252). -/
def cp1252Table : List (Nat × Nat) :=
  [(0x80, 0x20AC), (0x82, 0x201A), (0x83, 0x0192), (0x84, 0x201E),
   (0x85, 0x2026), (0x86, 0x2020), (0x87, 0x2021), (0x88, 0x02C6),
   (0x89, 0x2030), (0x8A, 0x0160), (0x8B, 0x2039), (0x8C, 0x0152),
   (0x8E, 0x017D), (0x91, 0x2018), (0x92, 0x2019), (0x93, 0x201C),
   (0x94, 0x201D), (0x95, 0x2022), (0x96, 0x2013), (0x97, 0x2014),
   (0x98, 0x02DC), (0x99, 0x2122), (0x9A, 0x0161), (0x9B, 0x203A),
   (0x9C, 0x0153), (0x9E, 0x017E), (0x9F, 0x0178)]

/-- Code point of a Windows-1252 byte: ASCII and 0xA0-0xFF map to
themselves, the 0x80-0x9F block through the table; undefined bytes and
values above 0xFF have no code point (strict decode raises). -/
def cp1252Point (b : Nat) : Option Nat :=
  if b < 0x80 ∨ (0xA0 ≤ b ∧ b < 0x100) then some b
  else (cp1252Table.find? (fun e => e.1 = b)).map (fun e => e.2)

/-- Windows-1252 byte of a code point (the inverse direction, for strict
encode): `none` for code points cp1252 cannot represent. -/
def cp1252Byte (n : Nat) : Option Nat :=
  if n < 0x80 ∨ (0xA0 ≤ n ∧ n < 0x100) then some n
  else (cp1252Table.find? (fun e => e.2 = n)).map (fun e => e.1)

def cp1252Decode : List Nat → Option (List Char)
  | [] => some []
  | b :: rest =>
    match cp1252Point b with
    | some p => (cp1252Decode rest).map (Char.ofNat p :: ·)
    | none => none

def cp1252Encode : List Char → Option (List Nat)
  | [] => some []
  | c :: rest =>
    match cp1252Byte c.toNat with
    | some b => (cp1252Encode rest).map (b :: ·)
    | none => none

/-- The `windows-1252` codec, the name `detect_encoding` returns for
legacy files (and normalizes cp1252/latin-1/iso-8859-1 detections to). -/
def windows1252 : Encoding where
  decode := cp1252Decode
  encode := cp1252Encode

/-- Read UTF-16 code units two bytes at a time; `be` selects big-endian
order.  An odd trailing byte is a strict-decode error. -/
def utf16Units (be : Bool) : List Nat → Option (List Nat)
  | [] => some []
  | [_] => none
  | b0 :: b1 :: rest =>
    let u := if be then b0 * 256 + b1 else b1 * 256 + b0
    (utf16Units be rest).map (u :: ·)

/-- Combine UTF-16 code units into characters: a high surrogate must be
followed by a low surrogate (else strict decode raises), a lone low
surrogate raises, anything else is its own code point. -/
def utf16Combine : List Nat → Option (List Char)
  | [] => some []
  | [u] =>
    if 0xD800 ≤ u ∧ u ≤ 0xDFFF then none else some [Char.ofNat u]
  | u :: lo :: rest =>
    if 0xD800 ≤ u ∧ u ≤ 0xDBFF then
      if 0xDC00 ≤ lo ∧ lo ≤ 0xDFFF then
        (utf16Combine rest).map
          (Char.ofNat (0x10000 + (u - 0xD800) * 0x400 + (lo - 0xDC00)) :: ·)
      else none
    else if 0xDC00 ≤ u ∧ u ≤ 0xDFFF then none
    else (utf16Combine (lo :: rest)).map (Char.ofNat u :: ·)

/-- CPython's `utf-16` decoder on a little-endian host: an explicit BOM
selects the byte order and is stripped; without a BOM the native
little-endian order is assumed and nothing is stripped. -/
def utf16Decode : List Nat → Option (List Char)
  | 0xFF :: 0xFE :: rest => (utf16Units false rest).bind utf16Combine
  | 0xFE :: 0xFF :: rest => (utf16Units true rest).bind utf16Combine
  | bs => (utf16Units false bs).bind utf16Combine

def utf16EncodeChar (c : Char) : List Nat :=
  let n := c.toNat
  if n < 0x10000 then [n % 256, n / 256]
  else
    let m := n - 0x10000
    let hi := 0xD800 + m / 0x400
    let lo := 0xDC00 + m % 0x400
    [hi % 256, hi / 256, lo % 256, lo / 256]

/-- CPython's `utf-16` encoder on a little-endian host: ALWAYS prepends
the native little-endian BOM and writes little-endian units -- the
source of the round-trip failure on big-endian-BOM input. -/
def utf16Encode (cs : List Char) : List Nat :=
  0xFF :: 0xFE :: (cs.map utf16EncodeChar).flatten

def utf16 : Encoding where
  decode := utf16Decode
  encode cs := some (utf16Encode cs)

/-- One step of the patch loop of `PreserveWriter.write` (lines 92-101):
patch the line at `row_no - 1` when it exists, keeping its terminator. -/
def preserveWriteRow (applyLine : List Char → List Patch → List Char)
    (lines : List (List Char × String)) (group : Nat × List Patch) :
    List (List Char × String) :=
  let lineIdx := group.1 - 1
  if h : lineIdx < lines.length then
    let ce := lines.get ⟨lineIdx, h⟩
    lines.set lineIdx (applyLine ce.1 group.2, ce.2)
  else lines

/-- `PreserveWriter.write` (writer.py lines 71-109): decode with the parse
result's encoding, split into terminator-preserving lines, apply grouped
patches per row, reassemble and re-encode with the same encoding.
`applyLine` abstracts `_apply_patches_to_line`; `none` models a
`UnicodeDecodeError`/`UnicodeEncodeError` escaping to the caller's
canonical fallback. -/
def preserveWrite (applyLine : List Char → List Patch → List Char)
    (patches : List Patch) (enc : Encoding) (fileBytes : List Nat) :
    Option (List Nat) :=
  (enc.decode fileBytes).bind fun text =>
    let lines := splitLines text
    let grouped := pyGroupBy (fun p => p.rowNo) patches
    let lines' := grouped.foldl (preserveWriteRow applyLine) lines
    enc.encode (joinLines lines')

theorem cp1252Point_lt {b p : Nat} (h : cp1252Point b = some p) : b < 256 := by
  unfold cp1252Point at h
  split at h
  · rename_i hc
    omega
  · rw [Option.map_eq_some'] at h
    obtain ⟨e, he, _⟩ := h
    have hmem := List.mem_of_find?_eq_some he
    have hpred : e.1 = b := by simpa using List.find?_some he
    have hall : ∀ x ∈ cp1252Table, x.1 < 256 := by decide
    have := hall e hmem
    omega

set_option maxRecDepth 4000 in
theorem cp1252_byte_point {b p : Nat} (h : cp1252Point b = some p) :
    cp1252Byte ((Char.ofNat p).toNat) = some b := by
  have hb : b < 256 := cp1252Point_lt h
  have hall : ∀ x ∈ List.range 256,
      cp1252Point x = none ∨
      cp1252Byte ((Char.ofNat ((cp1252Point x).getD 0)).toNat) = some x := by
    decide
  rcases hall b (List.mem_range.mpr hb) with hn | hgood
  · rw [h] at hn
    cases hn
  · rw [h] at hgood
    simpa using hgood

/-- Strict cp1252 encode inverts strict cp1252 decode byte-for-byte. -/
theorem cp1252_encode_decode :
    ∀ (bs : List Nat) (text : List Char),
    cp1252Decode bs = some text → cp1252Encode text = some bs := by
  intro bs
  induction bs with
  | nil =>
    intro text h
    cases h
    rfl
  | cons b rest ih =>
    intro text h
    unfold cp1252Decode at h
    cases hp : cp1252Point b with
    | none => rw [hp] at h; cases h
    | some p =>
      rw [hp, Option.map_eq_some'] at h
      obtain ⟨t, ht, rfl⟩ := h
      unfold cp1252Encode
      rw [cp1252_byte_point hp, ih t ht]
      rfl

/-- C2 (amended): with an empty patch list, the preserve writer returns
exactly `encode (decode fileBytes)` -- the split/patch/join pipeline is
the identity on the decoded text -- and for the windows-1252 codec this
is the original bytes byte-for-byte; the byte-for-byte round trip does
NOT hold for every strictly-decodable file, because the parser-selectable
`utf-16` codec re-encodes with the native byte order. -/
theorem claim_C2_empty_plan_roundtrip :
    (∀ (applyLine : List Char → List Patch → List Char) (enc : Encoding)
        (fileBytes : List Nat) (text : List Char),
      enc.decode fileBytes = some text →
      preserveWrite applyLine [] enc fileBytes = enc.encode text) ∧
    (∀ (applyLine : List Char → List Patch → List Char)
        (fileBytes : List Nat) (text : List Char),
      windows1252.decode fileBytes = some text →
      preserveWrite applyLine [] windows1252 fileBytes = some fileBytes) := by
  have hgen : ∀ (applyLine : List Char → List Patch → List Char)
      (enc : Encoding) (fileBytes : List Nat) (text : List Char),
      enc.decode fileBytes = some text →
      preserveWrite applyLine [] enc fileBytes = enc.encode text := by
    intro applyLine enc fileBytes text hdec
    unfold preserveWrite
    rw [hdec]
    simp [pyGroupBy, pyGroupKeys, joinLines_splitLines]
  refine ⟨hgen, ?_⟩
  intro applyLine fileBytes text hdec
  rw [hgen applyLine windows1252 fileBytes text hdec]
  exact cp1252_encode_decode fileBytes text hdec

/-- Witness for C2: the general equation on a concrete utf-16 file, and
the byte-for-byte round trip on a concrete windows-1252 file with mixed
terminators, 0x80-block characters and no final terminator. -/
theorem claim_C2_empty_plan_roundtrip_witness :
    preserveWrite (fun content _ => content) [] utf16
        [0xFE, 0xFF, 0x00, 0x61] = utf16.encode ['a'] ∧
    preserveWrite (fun content _ => content) [] windows1252
        [0x80, 13, 10, 0x99, 13, 97] = some [0x80, 13, 10, 0x99, 13, 97] :=
  ⟨claim_C2_empty_plan_roundtrip.1 (fun content _ => content) utf16
      [0xFE, 0xFF, 0x00, 0x61] ['a'] (by decide),
   claim_C2_empty_plan_roundtrip.2 (fun content _ => content)
      [0x80, 13, 10, 0x99, 13, 97] ['€', '\r', '\n', '™', '\r', 'a']
      (by decide)⟩

/-- **C2 counterexample**: the file `FE FF 00 61` carries a UTF-16
big-endian BOM, so `detect_encoding` assigns it `utf-16` and it strictly
decodes (to `"a"`); yet the empty-plan preserve write re-encodes with the
native little-endian BOM and unit order, returning different bytes. -/
theorem claim_C2_counterexample :
    detectEncoding [0xFE, 0xFF, 0x00, 0x61] = some "utf-16" ∧
    utf16.decode [0xFE, 0xFF, 0x00, 0x61] = some ['a'] ∧
    preserveWrite (fun content _ => content) [] utf16
      [0xFE, 0xFF, 0x00, 0x61] = some [0xFF, 0xFE, 0x61, 0x00] ∧
    ([0xFF, 0xFE, 0x61, 0x00] : List Nat) ≠ [0xFE, 0xFF, 0x00, 0x61] := by
  refine ⟨rfl, by decide, by decide, by decide⟩

/-! ## `core/parser/errors.py` and `core/parser/header.py`

Parser errors keep their code, severity and line number; the human-readable
message strings are elided.  The pydantic validation of `DatevHeader`
(field constraints such as `header_version` in 500..999) is modelled by
`mkDatevHeader`, whose `none` is the `ValidationError` caught at the end of
`parse_header`. -/

inductive Severity where
  | fatal | error | warn | info
deriving DecidableEq, Repr

structure ParserError where
  code : String
  severity : Severity
  lineNo : Option Nat := none
deriving DecidableEq, Repr

structure PyDateTime where
  date : PyDate
  hour : Nat
  minute : Nat
  second : Nat
deriving DecidableEq, Repr

/-- `datetime.datetime(y, mo, d, h, mi, s)`; `none` models `ValueError`. -/
def mkPyDateTime (y mo d h mi s : Nat) : Option PyDateTime :=
  match mkPyDate y mo d with
  | some dd => if h ≤ 23 && mi ≤ 59 && s ≤ 59 then some ⟨dd, h, mi, s⟩ else none
  | none => none

/-- `_get_token` (header.py lines 219-224). -/
def getToken (tokens : List String) (index : Nat) : Option String :=
  if index < tokens.length then
    let value := pyStrip (tokens.getD index "")
    if value = "" then none else some value
  else none

/-- `_parse_int` (header.py lines 227-235). -/
def parseIntAt (tokens : List String) (index : Nat) : Option Int :=
  match getToken tokens index with
  | some v => pyInt v
  | none => none

/-- `_parse_string_id` (header.py lines 238-249): keep only the digits,
as a string, to preserve leading zeros. -/
def parseStringIdAt (tokens : List String) (index : Nat) : Option String :=
  match getToken tokens index with
  | some v =>
    let digits : String := ⟨v.data.filter Char.isDigit⟩
    if digits = "" then none else some digits
  | none => none

/-- `_parse_date` (header.py lines 252-267): first 8 digits as YYYYMMDD. -/
def parseDateAt (tokens : List String) (index : Nat) : Option PyDate :=
  match getToken tokens index with
  | some v =>
    if 8 ≤ v.length then
      let digits := (v.data.filter Char.isDigit).take 8
      if digits.length = 8 then
        mkPyDate (digitsToNat (digits.take 4))
          (digitsToNat ((digits.drop 4).take 2)) (digitsToNat (digits.drop 6))
      else none
    else none
  | none => none

/-- `_parse_datetime` (header.py lines 270-288): YYYYMMDDHHMMSS. -/
def parseDatetimeAt (tokens : List String) (index : Nat) : Option PyDateTime :=
  match getToken tokens index with
  | some v =>
    if 14 ≤ v.length then
      let digits := (v.data.filter Char.isDigit).take 17
      if 14 ≤ digits.length then
        mkPyDateTime (digitsToNat (digits.take 4))
          (digitsToNat ((digits.drop 4).take 2))
          (digitsToNat ((digits.drop 6).take 2))
          (digitsToNat ((digits.drop 8).take 2))
          (digitsToNat ((digits.drop 10).take 2))
          (digitsToNat ((digits.drop 12).take 2))
      else none
    else none
  | none => none

/-- `DatevHeader` (parser/models.py lines 100-205). -/
structure DatevHeader where
  kennzeichen : String
  headerVersion : Int
  formatCategory : Int
  formatName : String
  formatVersion : Int
  createdAt : Option PyDateTime := none
  beraternummer : Option String := none
  mandantennummer : Option String := none
  fiscalYearStart : Option PyDate := none
  periodFrom : Option PyDate := none
  periodTo : Option PyDate := none
  accountLength : Option Int := none
  currency : Option String := none
  festschreibung : Option Int := none
  bezeichnung : Option String := none
  diktatKuerzel : Option String := none
  buchungstyp : Option Int := none
  rechnungslegungszweck : Option Int := none
  rawTokens : List String := []
deriving DecidableEq, Repr

/-- The pydantic field validation of `DatevHeader`: `kennzeichen` matches
`^EXTF$`, `header_version` in 500..999, operator/client ids digit-only,
`account_length` in 4..9, `currency` at most 3 characters,
`festschreibung` in 0..1.  `none` is a `ValidationError`. -/
def mkDatevHeader (h : DatevHeader) : Option DatevHeader :=
  if h.kennzeichen = "EXTF"
      && 500 ≤ h.headerVersion && h.headerVersion ≤ 999
      && (match h.beraternummer with
          | some s => s.data.all Char.isDigit
          | none => true)
      && (match h.mandantennummer with
          | some s => s.data.all Char.isDigit
          | none => true)
      && (match h.accountLength with
          | some a => 4 ≤ a && a ≤ 9
          | none => true)
      && (match h.currency with
          | some c => c.length ≤ 3
          | none => true)
      && (match h.festschreibung with
          | some f => 0 ≤ f && f ≤ 1
          | none => true) then
    some h
  else none

/-- `parse_header` (header.py lines 52-216). -/
def parseHeader (tokens : List String) : Option DatevHeader × List ParserError :=
  if tokens = [] then
    (none, [⟨"DVL-HDR-001", .fatal, some 1⟩])
  else if tokens.length < 5 then
    (none, [⟨"DVL-HDR-001", .fatal, some 1⟩])
  else
    let kennzeichen := pyUpper (pyStrip (tokens.getD 0 ""))
    if kennzeichen ≠ "EXTF" then
      (none, [⟨"DVL-HDR-001", .fatal, some 1⟩])
    else
      match pyInt (tokens.getD 1 "") with
      | none => (none, [⟨"DVL-HDR-002", .fatal, some 1⟩])
      | some headerVersion =>
        let errs0 : List ParserError :=
          if !(500 ≤ headerVersion && headerVersion ≤ 999) then
            [⟨"DVL-HDR-002", .error, some 1⟩]
          else []
        match pyInt (tokens.getD 2 "") with
        | none => (none, errs0 ++ [⟨"DVL-HDR-003", .fatal, some 1⟩])
        | some formatCategory =>
          let formatName := pyStrip (tokens.getD 3 "")
          let fvParsed := pyInt (tokens.getD 4 "")
          let formatVersion := fvParsed.getD 0
          let errs1 : List ParserError :=
            if fvParsed = none then [⟨"DVL-HDR-006", .warn, some 1⟩] else []
          let periodFrom := parseDateAt tokens 15
          let periodTo := parseDateAt tokens 16
          let errs2 : List ParserError :=
            match periodFrom, periodTo with
            | some pf, some pt =>
              if pf.leB pt then [] else [⟨"DVL-HDR-004", .error, some 1⟩]
            | _, _ => []
          let candidate : DatevHeader :=
            { kennzeichen := kennzeichen
              headerVersion := headerVersion
              formatCategory := formatCategory
              formatName := formatName
              formatVersion := formatVersion
              createdAt := parseDatetimeAt tokens 5
              beraternummer := parseStringIdAt tokens 11
              mandantennummer := parseStringIdAt tokens 12
              fiscalYearStart := parseDateAt tokens 13
              accountLength := parseIntAt tokens 14
              periodFrom := periodFrom
              periodTo := periodTo
              bezeichnung := getToken tokens 17
              diktatKuerzel := getToken tokens 18
              buchungstyp := parseIntAt tokens 19
              rechnungslegungszweck := parseIntAt tokens 20
              currency := getToken tokens 23
              festschreibung := parseIntAt tokens 30
              rawTokens := tokens }
          match mkDatevHeader candidate with
          | some h => (some h, errs0 ++ errs1 ++ errs2)
          | none => (none, errs0 ++ errs1 ++ errs2 ++ [⟨"DVL-HDR-006", .fatal, some 1⟩])

theorem mkDatevHeader_some {c h : DatevHeader} (hm : mkDatevHeader c = some h) :
    h = c := by
  unfold mkDatevHeader at hm
  split at hm
  · cases hm; rfl
  · cases hm

/-- Unfolding of `parse_header` past the token-count and marker checks. -/
theorem parseHeader_shape (tokens : List String) (hlen : 5 ≤ tokens.length)
    (hk : pyUpper (pyStrip (tokens.getD 0 "")) = "EXTF") :
    parseHeader tokens =
      match pyInt (tokens.getD 1 "") with
      | none => (none, [⟨"DVL-HDR-002", .fatal, some 1⟩])
      | some headerVersion =>
        let errs0 : List ParserError :=
          if !(500 ≤ headerVersion && headerVersion ≤ 999) then
            [⟨"DVL-HDR-002", .error, some 1⟩]
          else []
        match pyInt (tokens.getD 2 "") with
        | none => (none, errs0 ++ [⟨"DVL-HDR-003", .fatal, some 1⟩])
        | some formatCategory =>
          let fvParsed := pyInt (tokens.getD 4 "")
          let errs1 : List ParserError :=
            if fvParsed = none then [⟨"DVL-HDR-006", .warn, some 1⟩] else []
          let periodFrom := parseDateAt tokens 15
          let periodTo := parseDateAt tokens 16
          let errs2 : List ParserError :=
            match periodFrom, periodTo with
            | some pf, some pt =>
              if pf.leB pt then [] else [⟨"DVL-HDR-004", .error, some 1⟩]
            | _, _ => []
          let candidate : DatevHeader :=
            { kennzeichen := pyUpper (pyStrip (tokens.getD 0 ""))
              headerVersion := headerVersion
              formatCategory := formatCategory
              formatName := pyStrip (tokens.getD 3 "")
              formatVersion := fvParsed.getD 0
              createdAt := parseDatetimeAt tokens 5
              beraternummer := parseStringIdAt tokens 11
              mandantennummer := parseStringIdAt tokens 12
              fiscalYearStart := parseDateAt tokens 13
              accountLength := parseIntAt tokens 14
              periodFrom := periodFrom
              periodTo := periodTo
              bezeichnung := getToken tokens 17
              diktatKuerzel := getToken tokens 18
              buchungstyp := parseIntAt tokens 19
              rechnungslegungszweck := parseIntAt tokens 20
              currency := getToken tokens 23
              festschreibung := parseIntAt tokens 30
              rawTokens := tokens }
          match mkDatevHeader candidate with
          | some h => (some h, errs0 ++ errs1 ++ errs2)
          | none =>
            (none, errs0 ++ errs1 ++ errs2 ++ [⟨"DVL-HDR-006", .fatal, some 1⟩]) := by
  have hne : ¬ (tokens = []) := by
    intro h; subst h; simp at hlen
  have hlt : ¬ (tokens.length < 5) := by omega
  unfold parseHeader
  rw [if_neg hne, if_neg hlt]
  dsimp only
  rw [if_neg (fun hcon => hcon hk)]

/-- C5 counterexample: with the five tokens `EXTF;700;21;Stapel;xyz` the
mandatory `format_version` field fails to parse, yet `parse_header`
returns a header (with `format_version` downgraded to 0 and one warning)
instead of the fatal no-header outcome the claim requires. -/
theorem claim_C5_counterexample :
    pyInt "xyz" = none ∧
    ((parseHeader ["EXTF", "700", "21", "Stapel", "xyz"]).1).isSome = true ∧
    (parseHeader ["EXTF", "700", "21", "Stapel", "xyz"]).2 =
      [⟨"DVL-HDR-006", .warn, some 1⟩] := by decide

/-- C5 (amended): for a header record of at least 5 tokens, a failure to
parse the format marker, the header version or the format category is
fatal (no header); a `format_version` parse failure is not fatal — it
downgrades the value to 0 and adds a warning (format name, a plain string,
cannot fail); optional-field parse failures silently downgrade the field
to absent. -/
theorem claim_C5_mandatory_field_fatality (tokens : List String)
    (hlen : 5 ≤ tokens.length) :
    (pyUpper (pyStrip (tokens.getD 0 "")) ≠ "EXTF" →
       (parseHeader tokens).1 = none) ∧
    (pyUpper (pyStrip (tokens.getD 0 "")) = "EXTF" →
      (pyInt (tokens.getD 1 "") = none →
         parseHeader tokens = (none, [⟨"DVL-HDR-002", .fatal, some 1⟩])) ∧
      (∀ hv, pyInt (tokens.getD 1 "") = some hv →
         pyInt (tokens.getD 2 "") = none →
         (parseHeader tokens).1 = none ∧
         ParserError.mk "DVL-HDR-003" .fatal (some 1) ∈ (parseHeader tokens).2) ∧
      (∀ hv fc, pyInt (tokens.getD 1 "") = some hv →
         pyInt (tokens.getD 2 "") = some fc →
         pyInt (tokens.getD 4 "") = none →
         ParserError.mk "DVL-HDR-006" .warn (some 1) ∈ (parseHeader tokens).2 ∧
         ∀ h, (parseHeader tokens).1 = some h → h.formatVersion = 0) ∧
      (∀ h, (parseHeader tokens).1 = some h →
         h.buchungstyp = parseIntAt tokens 19 ∧
         h.accountLength = parseIntAt tokens 14)) := by
  have hne : ¬ (tokens = []) := by
    intro h; subst h; simp at hlen
  have hlt : ¬ (tokens.length < 5) := by omega
  constructor
  · intro hk
    unfold parseHeader
    rw [if_neg hne, if_neg hlt]
    dsimp only
    rw [if_pos hk]
  · intro hk
    rw [parseHeader_shape tokens hlen hk]
    refine ⟨?_, ?_, ?_, ?_⟩
    · intro h1
      rw [h1]
    · rintro hv h1 h2
      rw [h1]
      dsimp only
      rw [h2]
      exact ⟨rfl, by simp⟩
    · rintro hv fc h1 h2 h4
      rw [h1]
      dsimp only
      rw [h2]
      dsimp only
      rw [h4]
      constructor
      · cases hm : mkDatevHeader _ <;> simp
      · intro h hsome
        cases hm : mkDatevHeader _ <;> rw [hm] at hsome <;> dsimp only at hsome
        · cases hsome
        · rename_i hh
          cases hsome
          rw [mkDatevHeader_some hm]
          rfl
    · intro h hsome
      cases h1 : pyInt (tokens.getD 1 "") <;> rw [h1] at hsome <;> dsimp only at hsome
      · cases hsome
      · cases h2 : pyInt (tokens.getD 2 "") <;> rw [h2] at hsome <;>
          dsimp only at hsome
        · cases hsome
        · cases hm : mkDatevHeader _ <;> rw [hm] at hsome <;> dsimp only at hsome
          · cases hsome
          · cases hsome
            rw [mkDatevHeader_some hm]
            exact ⟨rfl, rfl⟩

/-- Witness for C5 (amended): an unparsable `format_category` aborts the
header. -/
theorem claim_C5_mandatory_field_fatality_witness :
    (parseHeader ["EXTF", "700", "x", "N", "5"]).1 = none ∧
    ParserError.mk "DVL-HDR-003" .fatal (some 1)
      ∈ (parseHeader ["EXTF", "700", "x", "N", "5"]).2 :=
  ((claim_C5_mandatory_field_fatality ["EXTF", "700", "x", "N", "5"]
      (by decide)).2 (by decide)).2.1 700 (by decide) (by decide)

/-! ## `core/fix/conflicts.py` and `core/fix/planner.py` : conflicts

`ConflictDetector.resolve` builds its exclusion set from `id(patch)`
(object identity) while comparing values against the selected patch;
object identity is modelled by tagging each list entry with its position
(`tagFrom`).  `PatchPlanner._resolve_conflicts` instead uses a value set.
-/

def locKey (p : Patch) : Nat × String := (p.rowNo, p.field)

def selectedOf (res : ConflictResolution) (g : List Patch) : Option Patch :=
  match res with
  | .firstWins => g.head?
  | .lastWins => g.getLast?
  | .manual => none

structure ConflictT where
  rowNo : Nat
  field : String
  patches : List (Nat × Patch)
  resolution : ConflictResolution
  selectedPatch : Option Patch
deriving DecidableEq, Repr

def tagFrom {α : Type} : Nat → List α → List (Nat × α)
  | _, [] => []
  | n, x :: xs => (n, x) :: tagFrom (n + 1) xs

def selectedOfT (res : ConflictResolution) (g : List (Nat × Patch)) :
    Option Patch :=
  match res with
  | .firstWins => (g.head?).map (fun tp => tp.2)
  | .lastWins => (g.getLast?).map (fun tp => tp.2)
  | .manual => none

def detectTagged (res : ConflictResolution) (tagged : List (Nat × Patch)) :
    List ConflictT :=
  (pyGroupBy (fun tp => locKey tp.2) tagged).filterMap fun kg =>
    if 1 < kg.2.length then
      some ⟨kg.1.1, kg.1.2, kg.2, res, selectedOfT res kg.2⟩
    else none

def conflictExcluded (c : ConflictT) : List Nat :=
  match c.selectedPatch with
  | none => c.patches.map (fun tp => tp.1)
  | some sel =>
    (c.patches.filter (fun tp => tp.2 ≠ sel)).map (fun tp => tp.1)

def excludedTags (conflicts : List ConflictT) : List Nat :=
  conflicts.foldl (fun ex c => ex ++ conflictExcluded c) []

def resolveTagged (tagged : List (Nat × Patch)) (conflicts : List ConflictT) :
    List (Nat × Patch) :=
  tagged.filter (fun tp => tp.1 ∉ excludedTags conflicts)

def detectConflicts (res : ConflictResolution) (patches : List Patch) :
    List Patch × List ConflictT :=
  let tagged := tagFrom 0 patches
  let conflicts := detectTagged res tagged
  ((resolveTagged tagged conflicts).map (fun tp => tp.2), conflicts)

-- basic lemmas

theorem mem_foldl_append {β γ : Type} (con : γ → List β) (cs : List γ)
    (init : List β) (b : β) :
    b ∈ cs.foldl (fun ex c => ex ++ con c) init ↔
      b ∈ init ∨ ∃ c ∈ cs, b ∈ con c := by
  induction cs generalizing init with
  | nil => simp
  | cons c cs ih =>
    simp only [List.foldl_cons, ih, List.mem_append, List.mem_cons]
    constructor
    · rintro ((h | h) | ⟨d, hd, hb⟩)
      · exact Or.inl h
      · exact Or.inr ⟨c, Or.inl rfl, h⟩
      · exact Or.inr ⟨d, Or.inr hd, hb⟩
    · rintro (h | ⟨d, (rfl | hd), hb⟩)
      · exact Or.inl (Or.inl h)
      · exact Or.inl (Or.inr hb)
      · exact Or.inr ⟨d, hd, hb⟩

theorem mem_pyGroupKeys_aux {α κ : Type} [DecidableEq κ] (key : α → κ)
    (xs : List α) (ks : List κ) (k : κ) :
    (k ∈ xs.foldl (fun ks x => if key x ∈ ks then ks else ks ++ [key x]) ks) ↔
      k ∈ ks ∨ ∃ x ∈ xs, key x = k := by
  induction xs generalizing ks with
  | nil => simp
  | cons x xs ih =>
    simp only [List.foldl_cons]
    by_cases h : key x ∈ ks
    · rw [if_pos h, ih]
      constructor
      · rintro (hk | he)
        · exact Or.inl hk
        · exact Or.inr (by rcases he with ⟨y, hy, hk⟩; exact ⟨y, List.mem_cons_of_mem _ hy, hk⟩)
      · rintro (hk | ⟨y, hy, hk⟩)
        · exact Or.inl hk
        · rcases List.mem_cons.mp hy with rfl | hy'
          · exact Or.inl (hk ▸ h)
          · exact Or.inr ⟨y, hy', hk⟩
    · rw [if_neg h, ih]
      simp only [List.mem_append, List.mem_cons, List.not_mem_nil, or_false]
      constructor
      · rintro ((hk | hk) | ⟨y, hy, hk⟩)
        · exact Or.inl hk
        · exact Or.inr ⟨x, Or.inl rfl, hk.symm⟩
        · exact Or.inr ⟨y, Or.inr hy, hk⟩
      · rintro (hk | ⟨y, (rfl | hy), hk⟩)
        · exact Or.inl (Or.inl hk)
        · exact Or.inl (Or.inr hk.symm)
        · exact Or.inr ⟨y, hy, hk⟩

theorem mem_pyGroupKeys {α κ : Type} [DecidableEq κ] (key : α → κ)
    (xs : List α) (k : κ) :
    k ∈ pyGroupKeys key xs ↔ ∃ x ∈ xs, key x = k := by
  unfold pyGroupKeys
  rw [mem_pyGroupKeys_aux]
  simp

theorem pyGroupKeys_nodup_aux {α κ : Type} [DecidableEq κ] (key : α → κ)
    (xs : List α) (ks : List κ) (hnd : ks.Nodup) :
    (xs.foldl (fun ks x => if key x ∈ ks then ks else ks ++ [key x]) ks).Nodup := by
  induction xs generalizing ks with
  | nil => exact hnd
  | cons x xs ih =>
    simp only [List.foldl_cons]
    by_cases h : key x ∈ ks
    · rw [if_pos h]; exact ih ks hnd
    · rw [if_neg h]
      exact ih _ (by simp [List.nodup_append, hnd, h])

theorem pyGroupKeys_nodup {α κ : Type} [DecidableEq κ] (key : α → κ)
    (xs : List α) : (pyGroupKeys key xs).Nodup :=
  pyGroupKeys_nodup_aux key xs [] List.nodup_nil

-- tagFrom lemmas

theorem tagFrom_fst_le {α : Type} {n : Nat} {xs : List α} {tp : Nat × α}
    (h : tp ∈ tagFrom n xs) : n ≤ tp.1 := by
  induction xs generalizing n with
  | nil => cases h
  | cons x xs ih =>
    rcases List.mem_cons.mp h with rfl | h'
    · exact Nat.le_refl _
    · exact Nat.le_of_succ_le (ih h')

theorem tagFrom_map_snd {α : Type} (n : Nat) (xs : List α) :
    (tagFrom n xs).map (fun tp => tp.2) = xs := by
  induction xs generalizing n with
  | nil => rfl
  | cons x xs ih => simp [tagFrom, ih]

theorem tagFrom_fst_inj {α : Type} {n : Nat} {xs : List α} {i : Nat}
    {q q' : α} (h : (i, q) ∈ tagFrom n xs) (h' : (i, q') ∈ tagFrom n xs) :
    q = q' := by
  induction xs generalizing n with
  | nil => cases h
  | cons x xs ih =>
    rcases List.mem_cons.mp h with heq | hm <;>
      rcases List.mem_cons.mp h' with heq' | hm'
    · cases heq; cases heq'; rfl
    · cases heq
      exact absurd (tagFrom_fst_le hm') (by omega)
    · cases heq'
      exact absurd (tagFrom_fst_le hm) (by omega)
    · exact ih hm hm'



theorem selectedOfT_eq (res : ConflictResolution) (g : List (Nat × Patch)) :
    selectedOfT res g = selectedOf res (g.map (fun tp => tp.2)) := by
  cases res <;> simp [selectedOfT, selectedOf, List.head?_map, List.getLast?_map]

theorem mem_conflictExcluded {c : ConflictT} {i : Nat} :
    i ∈ conflictExcluded c ↔
      ∃ tp ∈ c.patches, tp.1 = i ∧
        ∀ sel, c.selectedPatch = some sel → tp.2 ≠ sel := by
  unfold conflictExcluded
  cases hc : c.selectedPatch with
  | none =>
    simp only [List.mem_map]
    constructor
    · rintro ⟨tp, htp, rfl⟩
      exact ⟨tp, htp, rfl, fun sel hsel => by cases hsel⟩
    · rintro ⟨tp, htp, rfl, -⟩
      exact ⟨tp, htp, rfl⟩
  | some sel =>
    simp only [List.mem_map, List.mem_filter]
    constructor
    · rintro ⟨tp, ⟨htp, hne⟩, rfl⟩
      exact ⟨tp, htp, rfl, fun s hs => by cases hs; simpa using hne⟩
    · rintro ⟨tp, htp, rfl, hne⟩
      exact ⟨tp, ⟨htp, by simpa using hne sel rfl⟩, rfl⟩


theorem mem_detectTagged {res : ConflictResolution}
    {tagged : List (Nat × Patch)} {c : ConflictT} :
    c ∈ detectTagged res tagged ↔
      ∃ k ∈ pyGroupKeys (fun tp => locKey tp.2) tagged,
        1 < (tagged.filter (fun tp => locKey tp.2 = k)).length ∧
        c = ⟨k.1, k.2, tagged.filter (fun tp => locKey tp.2 = k), res,
             selectedOfT res (tagged.filter (fun tp => locKey tp.2 = k))⟩ := by
  unfold detectTagged pyGroupBy
  rw [List.filterMap_map, List.mem_filterMap]
  constructor
  · rintro ⟨k, hk, hF⟩
    simp only [Function.comp_apply, Option.ite_none_right_eq_some,
      Option.some.injEq] at hF
    exact ⟨k, hk, hF.1, hF.2.symm⟩
  · rintro ⟨k, hk, hlen, rfl⟩
    refine ⟨k, hk, ?_⟩
    simp only [Function.comp_apply, Option.ite_none_right_eq_some,
      Option.some.injEq]
    exact ⟨hlen, trivial⟩

/-- The tagged group for a key projects to the untagged group. -/
theorem tagged_group_map_snd (patches : List Patch) (k : Nat × String) :
    ((tagFrom 0 patches).filter (fun tp => locKey tp.2 = k)).map
        (fun tp => tp.2) =
      patches.filter (fun x => locKey x = k) := by
  conv_rhs => rw [← tagFrom_map_snd 0 patches]
  rw [List.filter_map]
  rfl

/-- Value-level exclusion condition used by `ConflictDetector.resolve`:
the patch sits in a conflict group and differs from the selected patch
(or the strategy selects none). -/
def excludedVal (res : ConflictResolution) (patches : List Patch)
    (q : Patch) : Prop :=
  1 < (patches.filter (fun x => locKey x = locKey q)).length ∧
    ∀ sel, selectedOf res (patches.filter (fun x => locKey x = locKey q))
        = some sel → q ≠ sel

theorem mem_excludedTags_iff {res : ConflictResolution} {patches : List Patch}
    {i : Nat} {q : Patch} (htp : (i, q) ∈ tagFrom 0 patches) :
    i ∈ excludedTags (detectTagged res (tagFrom 0 patches)) ↔
      excludedVal res patches q := by
  unfold excludedTags
  rw [mem_foldl_append]
  simp only [List.not_mem_nil, false_or]
  constructor
  · rintro ⟨c, hc, hic⟩
    rw [mem_detectTagged] at hc
    obtain ⟨k, hk, hlen, rfl⟩ := hc
    rw [mem_conflictExcluded] at hic
    obtain ⟨tp, htpg, hfst, hsel⟩ := hic
    have htptagged : tp ∈ tagFrom 0 patches := (List.mem_filter.mp htpg).1
    have htpk : locKey tp.2 = k := by
      have h2 := (List.mem_filter.mp htpg).2
      simpa using h2
    have hq : tp.2 = q := by
      have hmem : (i, tp.2) ∈ tagFrom 0 patches := hfst ▸ htptagged
      exact tagFrom_fst_inj hmem htp
    subst hq
    subst htpk
    constructor
    · rw [← tagged_group_map_snd patches (locKey tp.2), List.length_map]
      exact hlen
    · intro sel hs
      apply hsel
      show selectedOfT res _ = some sel
      rw [selectedOfT_eq, tagged_group_map_snd]
      exact hs
  · rintro ⟨hlen, hsel⟩
    refine ⟨⟨(locKey q).1, (locKey q).2,
        (tagFrom 0 patches).filter (fun tp => locKey tp.2 = locKey q), res,
        selectedOfT res ((tagFrom 0 patches).filter
          (fun tp => locKey tp.2 = locKey q))⟩, ?_, ?_⟩
    · rw [mem_detectTagged]
      refine ⟨locKey q, ?_, ?_, rfl⟩
      · rw [mem_pyGroupKeys]
        exact ⟨(i, q), htp, rfl⟩
      · rw [← tagged_group_map_snd patches (locKey q), List.length_map] at hlen
        exact hlen
    · rw [mem_conflictExcluded]
      refine ⟨(i, q), ?_, rfl, ?_⟩
      · exact List.mem_filter.mpr ⟨htp, by simp⟩
      · intro sel hs
        apply hsel
        rw [← tagged_group_map_snd patches (locKey q), ← selectedOfT_eq]
        exact hs


/-- A patch value survives `ConflictDetector.resolve`: its location group
is no conflict, or it coincides with the selected patch. -/
def survives (res : ConflictResolution) (patches : List Patch) (q : Patch) :
    Bool :=
  (patches.filter (fun x => locKey x = locKey q)).length ≤ 1 ||
    (match selectedOf res (patches.filter (fun x => locKey x = locKey q)) with
     | none => false
     | some sel => q = sel)

theorem survives_eq_false_iff (res : ConflictResolution) (patches : List Patch)
    (q : Patch) : survives res patches q = false ↔ excludedVal res patches q := by
  unfold survives excludedVal
  cases hsel : selectedOf res (patches.filter (fun x => locKey x = locKey q)) with
  | none =>
    simp only [Bool.or_eq_false_iff, decide_eq_false_iff_not, Nat.not_le]
    constructor
    · rintro ⟨h, -⟩
      exact ⟨h, fun sel hs => by cases hs⟩
    · rintro ⟨h, -⟩
      exact ⟨h, trivial⟩
  | some sel =>
    simp only [Bool.or_eq_false_iff, decide_eq_false_iff_not, Nat.not_le]
    constructor
    · rintro ⟨h, hq⟩
      exact ⟨h, fun s hs => by cases hs; exact hq⟩
    · rintro ⟨h, hq⟩
      exact ⟨h, hq sel rfl⟩

/-- Master characterization of `detect_conflicts`: the resolved list is
exactly the input filtered by the survival predicate. -/
theorem detectConflicts_resolved (res : ConflictResolution)
    (patches : List Patch) :
    (detectConflicts res patches).1 = patches.filter (survives res patches) := by
  unfold detectConflicts resolveTagged
  dsimp only
  rw [List.filter_congr (fun tp htp => ?_)]
  · show ((tagFrom 0 patches).filter
        (fun tp => survives res patches tp.2)).map (fun tp => tp.2) =
      patches.filter (survives res patches)
    have hcomp : (fun (tp : Nat × Patch) => survives res patches tp.2)
        = (survives res patches ∘ fun tp => tp.2) := rfl
    rw [hcomp, ← List.filter_map, tagFrom_map_snd]
  · show (decide (tp.1 ∉ excludedTags (detectTagged res (tagFrom 0 patches))))
        = survives res patches tp.2
    have hiff := @mem_excludedTags_iff res patches tp.1 tp.2 htp
    rw [← survives_eq_false_iff] at hiff
    cases hsv : survives res patches tp.2
    · simp only [decide_eq_false_iff_not, Decidable.not_not]
      exact hiff.mpr hsv
    · simp only [decide_eq_true_eq]
      intro hmem
      rw [hiff.mp hmem] at hsv
      cases hsv


theorem filter_filterMap_nodup_key {κ γ : Type} [DecidableEq κ]
    (keys : List κ) (hnd : keys.Nodup) (F : κ → Option γ) (keyOf : γ → κ)
    (hF : ∀ k c, F k = some c → keyOf c = k) (k : κ) :
    (keys.filterMap F).filter (fun c => keyOf c = k) =
      if k ∈ keys then (F k).toList else [] := by
  induction keys with
  | nil => simp
  | cons k' keys ih =>
    have hnd' : keys.Nodup := (List.nodup_cons.mp hnd).2
    have hk' : k' ∉ keys := (List.nodup_cons.mp hnd).1
    rw [List.filterMap_cons]
    cases hf : F k' with
    | none =>
      rw [ih hnd']
      by_cases hkk : k = k'
      · subst hkk
        simp [hk', hf]
      · simp [List.mem_cons, hkk]
    | some c =>
      have hkc : keyOf c = k' := hF k' c hf
      rw [List.filter_cons]
      by_cases hkk : k = k'
      · subst hkk
        rw [ih hnd']
        simp [hkc, hk', hf]
      · rw [ih hnd']
        simp only [hkc, hkk, List.mem_cons]
        have : ¬ (k = k' ∨ k ∈ keys) ↔ ¬ (k ∈ keys) := by
          constructor
          · intro h hm; exact h (Or.inr hm)
          · intro h hm; rcases hm with rfl | hm
            · exact hkk rfl
            · exact h hm
        have hkk' : ¬ k' = k := fun h => hkk h.symm
        by_cases hmem : k ∈ keys <;> simp [hmem, hkk, hkk']


theorem tagged_group_length (patches : List Patch) (k : Nat × String) :
    ((tagFrom 0 patches).filter (fun tp => locKey tp.2 = k)).length =
      (patches.filter (fun x => locKey x = k)).length := by
  rw [← tagged_group_map_snd patches k, List.length_map]

/-- The conflicts reported at one location: exactly one when the location's
group has at least two patches, none otherwise. -/
theorem detectConflicts_conflicts_at (res : ConflictResolution)
    (patches : List Patch) (k : Nat × String) :
    ((detectConflicts res patches).2).filter
        (fun c => (c.rowNo, c.field) = k) =
      if 1 < (patches.filter (fun x => locKey x = k)).length then
        [⟨k.1, k.2, (tagFrom 0 patches).filter (fun tp => locKey tp.2 = k), res,
          selectedOfT res ((tagFrom 0 patches).filter
            (fun tp => locKey tp.2 = k))⟩]
      else [] := by
  show (detectTagged res (tagFrom 0 patches)).filter _ = _
  have hdt : detectTagged res (tagFrom 0 patches) =
      (pyGroupKeys (fun tp => locKey tp.2) (tagFrom 0 patches)).filterMap
        (fun k' =>
          if 1 < ((tagFrom 0 patches).filter
              (fun tp => locKey tp.2 = k')).length then
            some ⟨k'.1, k'.2,
              (tagFrom 0 patches).filter (fun tp => locKey tp.2 = k'), res,
              selectedOfT res ((tagFrom 0 patches).filter
                (fun tp => locKey tp.2 = k'))⟩
          else none) := by
    unfold detectTagged pyGroupBy
    rw [List.filterMap_map]
    rfl
  rw [hdt]
  have hFcond : ∀ (k' : Nat × String) (c : ConflictT),
      (fun k' =>
          if 1 < ((tagFrom 0 patches).filter
              (fun tp => locKey tp.2 = k')).length then
            some (ConflictT.mk k'.1 k'.2
              ((tagFrom 0 patches).filter (fun tp => locKey tp.2 = k')) res
              (selectedOfT res ((tagFrom 0 patches).filter
                (fun tp => locKey tp.2 = k'))))
          else none) k' = some c → (c.rowNo, c.field) = k' := by
    intro k' c hc
    simp only [Option.ite_none_right_eq_some, Option.some.injEq] at hc
    rw [← hc.2]
  rw [filter_filterMap_nodup_key _ (pyGroupKeys_nodup _ _) _
    (fun (c : ConflictT) => (c.rowNo, c.field)) hFcond k]
  by_cases hlen : 1 < (patches.filter (fun x => locKey x = k)).length
  · have hlenT : 1 < ((tagFrom 0 patches).filter
        (fun tp => locKey tp.2 = k)).length := by
      rw [tagged_group_length]; exact hlen
    have hkmem : k ∈ pyGroupKeys (fun tp => locKey tp.2) (tagFrom 0 patches) := by
      rw [mem_pyGroupKeys]
      have hpos : 0 < (patches.filter (fun x => locKey x = k)).length := by omega
      obtain ⟨x, hx⟩ := List.exists_mem_of_length_pos hpos
      obtain ⟨hx1, hx2⟩ := List.mem_filter.mp hx
      obtain ⟨tp, htp, htp2⟩ := by
        have : x ∈ (tagFrom 0 patches).map (fun tp => tp.2) := by
          rw [tagFrom_map_snd]; exact hx1
        exact List.mem_map.mp this
      exact ⟨tp, htp, by rw [htp2]; simpa using hx2⟩
    rw [if_pos hkmem, if_pos hlen]
    simp only [Function.comp_apply, if_pos hlenT]
    rfl
  · have hlenT : ¬ 1 < ((tagFrom 0 patches).filter
        (fun tp => locKey tp.2 = k)).length := by
      rw [tagged_group_length]; exact hlen
    rw [if_neg hlen]
    by_cases hkmem : k ∈ pyGroupKeys (fun tp => locKey tp.2) (tagFrom 0 patches)
    · rw [if_pos hkmem]
      simp only [Function.comp_apply, if_neg hlenT]
      rfl
    · rw [if_neg hkmem]


/-! ### `core/fix/planner.py` : `_detect_conflicts` / `_resolve_conflicts` -/

structure ConflictV where
  rowNo : Nat
  field : String
  patches : List Patch
  resolution : ConflictResolution
  selectedPatch : Option Patch
deriving DecidableEq, Repr

/-- planner.py line 137: `patch_list[0] if resolution == FIRST_WINS else
patch_list[-1]` — note MANUAL falls into the last-wins branch here. -/
def selectedOfPlanner (res : ConflictResolution) (g : List Patch) :
    Option Patch :=
  if res = .firstWins then g.head? else g.getLast?

/-- `PatchPlanner._detect_conflicts` (planner.py lines 125-148). -/
def plannerDetectConflicts (res : ConflictResolution) (patches : List Patch) :
    List ConflictV :=
  (pyGroupBy locKey patches).filterMap fun kg =>
    if 1 < kg.2.length then
      some ⟨kg.1.1, kg.1.2, kg.2, res, selectedOfPlanner res kg.2⟩
    else none

def conflictExcludedV (c : ConflictV) : List Patch :=
  c.patches.filter (fun p => some p ≠ c.selectedPatch)

/-- The value-based exclusion set of `PatchPlanner._resolve_conflicts`
(planner.py lines 150-164). -/
def plannerExcluded (conflicts : List ConflictV) : List Patch :=
  conflicts.foldl (fun ex c => ex ++ conflictExcludedV c) []

def plannerResolveConflicts (patches : List Patch)
    (conflicts : List ConflictV) : List Patch :=
  patches.filter (fun p => p ∉ plannerExcluded conflicts)

/-- Python string `<`: lexicographic on code points. -/
def charListLt : List Char → List Char → Bool
  | _, [] => false
  | [], _ :: _ => true
  | a :: as, b :: bs =>
    if a.toNat < b.toNat then true
    else if b.toNat < a.toNat then false
    else charListLt as bs

def strLt (a b : String) : Bool := charListLt a.data b.data

/-- Key comparison of `patches.sort(key=lambda p: (p.row_no, p.field))`. -/
def patchLe (a b : Patch) : Bool :=
  if a.rowNo ≠ b.rowNo then a.rowNo < b.rowNo
  else !(strLt b.field a.field)

/-- Stable insertion: `x` goes after every earlier element it does not
strictly precede. -/
def stableInsert {α : Type} (le : α → α → Bool) (x : α) : List α → List α
  | [] => [x]
  | y :: ys => if le y x then y :: stableInsert le x ys else x :: y :: ys

/-- A stable sort (Python `list.sort` is stable). -/
def pySorted {α : Type} (le : α → α → Bool) (xs : List α) : List α :=
  xs.foldl (fun acc x => stableInsert le x acc) []

/-- `PatchPlanner.plan`, restricted to its patch pipeline (planner.py
lines 97-104): stable-sort by `(row_no, field)`, detect conflicts,
resolve; returns `(resolved patches, conflicts)`. -/
def plannerPlanPatches (res : ConflictResolution) (patches0 : List Patch) :
    List Patch × List ConflictV :=
  let sorted := pySorted patchLe patches0
  let conflicts := plannerDetectConflicts res sorted
  (plannerResolveConflicts sorted conflicts, conflicts)

theorem mem_plannerDetect {res : ConflictResolution} {patches : List Patch}
    {c : ConflictV} :
    c ∈ plannerDetectConflicts res patches ↔
      ∃ k ∈ pyGroupKeys locKey patches,
        1 < (patches.filter (fun x => locKey x = k)).length ∧
        c = ⟨k.1, k.2, patches.filter (fun x => locKey x = k), res,
             selectedOfPlanner res (patches.filter (fun x => locKey x = k))⟩ := by
  unfold plannerDetectConflicts pyGroupBy
  rw [List.filterMap_map, List.mem_filterMap]
  constructor
  · rintro ⟨k, hk, hF⟩
    simp only [Function.comp_apply, Option.ite_none_right_eq_some,
      Option.some.injEq] at hF
    exact ⟨k, hk, hF.1, hF.2.symm⟩
  · rintro ⟨k, hk, hlen, rfl⟩
    refine ⟨k, hk, ?_⟩
    simp only [Function.comp_apply, Option.ite_none_right_eq_some,
      Option.some.injEq]
    exact ⟨hlen, trivial⟩

theorem mem_plannerExcluded_iff {res : ConflictResolution}
    {patches : List Patch} {q : Patch} (hq : q ∈ patches) :
    q ∈ plannerExcluded (plannerDetectConflicts res patches) ↔
      1 < (patches.filter (fun x => locKey x = locKey q)).length ∧
        some q ≠ selectedOfPlanner res
          (patches.filter (fun x => locKey x = locKey q)) := by
  unfold plannerExcluded
  rw [mem_foldl_append]
  simp only [List.not_mem_nil, false_or]
  constructor
  · rintro ⟨c, hc, hqc⟩
    rw [mem_plannerDetect] at hc
    obtain ⟨k, hk, hlen, rfl⟩ := hc
    unfold conflictExcludedV at hqc
    simp only [List.mem_filter, decide_eq_true_eq] at hqc
    obtain ⟨hqg, hqne⟩ := hqc
    have hkq : locKey q = k := hqg.2
    subst hkq
    exact ⟨hlen, by simpa using hqne⟩
  · rintro ⟨hlen, hne⟩
    refine ⟨⟨(locKey q).1, (locKey q).2,
        patches.filter (fun x => locKey x = locKey q), res,
        selectedOfPlanner res (patches.filter
          (fun x => locKey x = locKey q))⟩, ?_, ?_⟩
    · rw [mem_plannerDetect]
      refine ⟨locKey q, ?_, hlen, rfl⟩
      rw [mem_pyGroupKeys]
      exact ⟨q, hq, rfl⟩
    · unfold conflictExcludedV
      simp only [List.mem_filter, decide_eq_true_eq]
      exact ⟨⟨hq, trivial⟩, by simpa using hne⟩

/-- A patch value survives `PatchPlanner._resolve_conflicts`. -/
def survivesPlanner (res : ConflictResolution) (patches : List Patch)
    (q : Patch) : Bool :=
  (patches.filter (fun x => locKey x = locKey q)).length ≤ 1 ||
    (some q = selectedOfPlanner res
      (patches.filter (fun x => locKey x = locKey q)))

/-- Master characterization of the planner resolve step. -/
theorem plannerResolve_eq (res : ConflictResolution) (patches : List Patch) :
    plannerResolveConflicts patches (plannerDetectConflicts res patches) =
      patches.filter (survivesPlanner res patches) := by
  unfold plannerResolveConflicts
  apply List.filter_congr
  intro q hq
  have hiff := @mem_plannerExcluded_iff res patches q hq
  unfold survivesPlanner
  by_cases hx : q ∈ plannerExcluded (plannerDetectConflicts res patches)
  · obtain ⟨hlen, hne⟩ := hiff.mp hx
    simp [hx, Nat.not_le.mpr hlen, hne]
  · have hsur : (patches.filter (fun x => locKey x = locKey q)).length ≤ 1 ∨
        some q = selectedOfPlanner res
          (patches.filter (fun x => locKey x = locKey q)) := by
      by_contra hcon
      push_neg at hcon
      exact hx (hiff.mpr ⟨hcon.1, hcon.2⟩)
    rcases hsur with h | h <;> simp [hx, h]

theorem plannerDetect_conflicts_at (res : ConflictResolution)
    (patches : List Patch) (k : Nat × String) :
    (plannerDetectConflicts res patches).filter
        (fun c => (c.rowNo, c.field) = k) =
      if 1 < (patches.filter (fun x => locKey x = k)).length then
        [⟨k.1, k.2, patches.filter (fun x => locKey x = k), res,
          selectedOfPlanner res (patches.filter (fun x => locKey x = k))⟩]
      else [] := by
  have hdt : plannerDetectConflicts res patches =
      (pyGroupKeys locKey patches).filterMap
        (fun k' =>
          if 1 < (patches.filter (fun x => locKey x = k')).length then
            some ⟨k'.1, k'.2, patches.filter (fun x => locKey x = k'), res,
              selectedOfPlanner res (patches.filter
                (fun x => locKey x = k'))⟩
          else none) := by
    unfold plannerDetectConflicts pyGroupBy
    rw [List.filterMap_map]
    rfl
  rw [hdt]
  have hFcond : ∀ (k' : Nat × String) (c : ConflictV),
      (fun k' =>
          if 1 < (patches.filter (fun x => locKey x = k')).length then
            some (ConflictV.mk k'.1 k'.2
              (patches.filter (fun x => locKey x = k')) res
              (selectedOfPlanner res (patches.filter
                (fun x => locKey x = k'))))
          else none) k' = some c → (c.rowNo, c.field) = k' := by
    intro k' c hc
    simp only [Option.ite_none_right_eq_some, Option.some.injEq] at hc
    rw [← hc.2]
  rw [filter_filterMap_nodup_key _ (pyGroupKeys_nodup _ _) _
    (fun (c : ConflictV) => (c.rowNo, c.field)) hFcond k]
  by_cases hlen : 1 < (patches.filter (fun x => locKey x = k)).length
  · have hkmem : k ∈ pyGroupKeys locKey patches := by
      rw [mem_pyGroupKeys]
      have hpos : 0 < (patches.filter (fun x => locKey x = k)).length := by omega
      obtain ⟨x, hx⟩ := List.exists_mem_of_length_pos hpos
      obtain ⟨hx1, hx2⟩ := List.mem_filter.mp hx
      exact ⟨x, hx1, by simpa using hx2⟩
    rw [if_pos hkmem, if_pos hlen, if_pos hlen]
    rfl
  · by_cases hkmem : k ∈ pyGroupKeys locKey patches
    · simp only [if_pos hkmem, if_neg hlen]
      rfl
    · simp only [if_neg hkmem, if_neg hlen]

theorem stableInsert_perm {α : Type} (le : α → α → Bool) (x : α)
    (l : List α) : (stableInsert le x l).Perm (x :: l) := by
  induction l with
  | nil => rfl
  | cons y ys ih =>
    unfold stableInsert
    by_cases h : le y x = true
    · rw [if_pos h]
      exact (ih.cons y).trans (List.Perm.swap x y ys)
    · rw [if_neg h]

theorem pySorted_perm_aux {α : Type} (le : α → α → Bool) (xs acc : List α) :
    (xs.foldl (fun acc x => stableInsert le x acc) acc).Perm (acc ++ xs) := by
  induction xs generalizing acc with
  | nil => simp
  | cons x xs ih =>
    simp only [List.foldl_cons]
    refine (ih (stableInsert le x acc)).trans ?_
    refine (((stableInsert_perm le x acc).append_right xs).trans ?_)
    exact List.perm_middle.symm.trans (by simp)

theorem pySorted_perm {α : Type} (le : α → α → Bool) (xs : List α) :
    (pySorted le xs).Perm xs := by
  simpa using pySorted_perm_aux le xs []


theorem perm_pair_eq {α : Type} {l : List α} {a : α} (h : l.Perm [a, a]) :
    l = [a, a] := by
  have hlen := h.length_eq
  rcases l with _ | ⟨x, _ | ⟨y, _ | ⟨z, t⟩⟩⟩ <;> simp at hlen
  have hx : x ∈ [a, a] := h.mem_iff.mp (by simp)
  have hy : y ∈ [a, a] := h.mem_iff.mp (by simp)
  simp at hx hy
  rw [hx, hy]

/-- C4 (amended): under the MANUAL strategy, the standalone
`detect_conflicts` path selects no patch in any conflict group and
excludes every member of every conflict group from the resolved patch
list; `PatchPlanner.plan`, however, treats MANUAL exactly like LAST_WINS —
each conflict records the last group member as selected and the resolved
list keeps it. -/
theorem claim_C4_manual_resolution (patches : List Patch) :
    (∀ c ∈ (detectConflicts .manual patches).2, c.selectedPatch = none) ∧
    (∀ c ∈ (detectConflicts .manual patches).2,
       (detectConflicts .manual patches).1.filter
         (fun q => locKey q = (c.rowNo, c.field)) = []) ∧
    (plannerPlanPatches .manual patches).1
      = (plannerPlanPatches .lastWins patches).1 ∧
    (∀ c ∈ (plannerPlanPatches .manual patches).2,
       c.selectedPatch = ((pySorted patchLe patches).filter
         (fun q => locKey q = (c.rowNo, c.field))).getLast?) := by
  refine ⟨?_, ?_, ?_, ?_⟩
  · intro c hc
    have hc' : c ∈ detectTagged .manual (tagFrom 0 patches) := hc
    rw [mem_detectTagged] at hc'
    obtain ⟨k, hk, hlen, rfl⟩ := hc'
    rfl
  · intro c hc
    have hc' : c ∈ detectTagged .manual (tagFrom 0 patches) := hc
    rw [mem_detectTagged] at hc'
    obtain ⟨k, hk, hlenT, rfl⟩ := hc'
    rw [detectConflicts_resolved, List.filter_filter]
    rw [List.filter_eq_nil_iff]
    intro q hq
    by_cases hloc : locKey q = (k.1, k.2)
    · have hlen : 1 < (patches.filter (fun x => locKey x = k)).length := by
        rw [← tagged_group_length]
        exact hlenT
      have hsv : survives .manual patches q = false := by
        rw [survives_eq_false_iff]
        constructor
        · rw [hloc]
          exact hlen
        · intro sel hs
          cases hs
      simp [hsv]
    · simp [hloc]
  · show plannerResolveConflicts _ _ = plannerResolveConflicts _ _
    rw [plannerResolve_eq, plannerResolve_eq]
    apply List.filter_congr
    intro q hq
    rfl
  · intro c hc
    have hc' : c ∈ plannerDetectConflicts .manual (pySorted patchLe patches) := hc
    rw [mem_plannerDetect] at hc'
    obtain ⟨k, hk, hlen, rfl⟩ := hc'
    rfl

/-- C9: when exactly two value-equal copies of a patch target a
`(row_no, field)` location, conflict detection reports one conflict there,
and resolution under first-wins or last-wins keeps both copies in the
resolved list (exclusion compares group members to the selected patch by
value), in both the standalone `detect_conflicts` path and
`PatchPlanner.plan`. -/
theorem claim_C9_duplicate_patches_survive (patches : List Patch) (p : Patch)
    (r : Nat) (f : String) (res : ConflictResolution)
    (hres : res = .firstWins ∨ res = .lastWins)
    (hg : patches.filter (fun q => locKey q = (r, f)) = [p, p]) :
    ((detectConflicts res patches).2.filter
        (fun c => (c.rowNo, c.field) = (r, f))).length = 1 ∧
    (detectConflicts res patches).1.filter
        (fun q => locKey q = (r, f)) = [p, p] ∧
    ((plannerPlanPatches res patches).2.filter
        (fun c => (c.rowNo, c.field) = (r, f))).length = 1 ∧
    (plannerPlanPatches res patches).1.filter
        (fun q => locKey q = (r, f)) = [p, p] := by
  have hglen : 1 < (patches.filter (fun q => locKey q = (r, f))).length := by
    rw [hg]; simp
  have hsorted : (pySorted patchLe patches).filter
      (fun q => locKey q = (r, f)) = [p, p] := by
    refine perm_pair_eq ?_
    refine ((pySorted_perm patchLe patches).filter _).trans ?_
    rw [hg]
  have hsortedlen : 1 < ((pySorted patchLe patches).filter
      (fun q => locKey q = (r, f))).length := by
    rw [hsorted]; simp
  have hcong : ∀ (qs : List Patch),
      qs.filter (fun q => locKey q = (r, f)) = [p, p] →
      ∀ q ∈ qs, (decide (locKey q = (r, f)) && survives res qs q)
          = decide (locKey q = (r, f)) := by
    intro qs hgq q hq
    by_cases hloc : locKey q = (r, f)
    · have hqp : q = p := by
        have hmem : q ∈ qs.filter (fun q => locKey q = (r, f)) :=
          List.mem_filter.mpr ⟨hq, by simp [hloc]⟩
        rw [hgq] at hmem
        simpa using hmem
      subst hqp
      have hgr : qs.filter (fun x => locKey x = locKey q) = [q, q] := by
        rw [hloc]
        exact hgq
      have hsv : survives res qs q = true := by
        unfold survives
        rw [hgr]
        rcases hres with rfl | rfl <;> simp [selectedOf]
      simp [hloc, hsv]
    · simp [hloc]
  have hcongP : ∀ (qs : List Patch),
      qs.filter (fun q => locKey q = (r, f)) = [p, p] →
      ∀ q ∈ qs, (decide (locKey q = (r, f)) && survivesPlanner res qs q)
          = decide (locKey q = (r, f)) := by
    intro qs hgq q hq
    by_cases hloc : locKey q = (r, f)
    · have hqp : q = p := by
        have hmem : q ∈ qs.filter (fun q => locKey q = (r, f)) :=
          List.mem_filter.mpr ⟨hq, by simp [hloc]⟩
        rw [hgq] at hmem
        simpa using hmem
      subst hqp
      have hgr : qs.filter (fun x => locKey x = locKey q) = [q, q] := by
        rw [hloc]
        exact hgq
      have hsv : survivesPlanner res qs q = true := by
        unfold survivesPlanner
        rw [hgr]
        rcases hres with rfl | rfl <;> simp [selectedOfPlanner]
      simp [hloc, hsv]
    · simp [hloc]
  refine ⟨?_, ?_, ?_, ?_⟩
  · rw [detectConflicts_conflicts_at, if_pos hglen]
    rfl
  · rw [detectConflicts_resolved, List.filter_filter,
      List.filter_congr (hcong patches hg), hg]
  · show ((plannerDetectConflicts res (pySorted patchLe patches)).filter _).length = 1
    rw [plannerDetect_conflicts_at, if_pos hsortedlen]
    rfl
  · show (plannerResolveConflicts _ _).filter _ = _
    rw [plannerResolve_eq, List.filter_filter,
      List.filter_congr (hcongP (pySorted patchLe patches) hsorted), hsorted]


/-- C4 counterexample: two distinct patches on the same `(row_no, field)`
run through `PatchPlanner.plan` with the MANUAL strategy — the planner
selects the last patch and keeps it in the resolved list, instead of
excluding every member of the conflict group as the claim asserts. -/
theorem claim_C4_counterexample :
    (plannerPlanPatches .manual
        [⟨3, "belegfeld1", .upperOp, "a", "A", .low, false, "R1", "1"⟩,
         ⟨3, "belegfeld1", .truncateOp, "a", "ab", .medium, false, "R2", "1"⟩]).1
      = [⟨3, "belegfeld1", .truncateOp, "a", "ab", .medium, false, "R2", "1"⟩] ∧
    (plannerPlanPatches .manual
        [⟨3, "belegfeld1", .upperOp, "a", "A", .low, false, "R1", "1"⟩,
         ⟨3, "belegfeld1", .truncateOp, "a", "ab", .medium, false, "R2", "1"⟩]).2.map
        (fun c => c.selectedPatch)
      = [some ⟨3, "belegfeld1", .truncateOp, "a", "ab", .medium, false, "R2", "1"⟩] := by
  decide

/-- Witness for C9 on a concrete two-copy patch list. -/
theorem claim_C9_duplicate_patches_survive_witness :
    ((detectConflicts .firstWins
        [⟨3, "konto", .upperOp, "a", "A", .low, false, "R1", "1"⟩,
         ⟨3, "konto", .upperOp, "a", "A", .low, false, "R1", "1"⟩]).2.filter
        (fun c => (c.rowNo, c.field) = (3, "konto"))).length = 1 ∧
    (detectConflicts .firstWins
        [⟨3, "konto", .upperOp, "a", "A", .low, false, "R1", "1"⟩,
         ⟨3, "konto", .upperOp, "a", "A", .low, false, "R1", "1"⟩]).1.filter
        (fun q => locKey q = (3, "konto"))
      = [⟨3, "konto", .upperOp, "a", "A", .low, false, "R1", "1"⟩,
         ⟨3, "konto", .upperOp, "a", "A", .low, false, "R1", "1"⟩] ∧
    ((plannerPlanPatches .firstWins
        [⟨3, "konto", .upperOp, "a", "A", .low, false, "R1", "1"⟩,
         ⟨3, "konto", .upperOp, "a", "A", .low, false, "R1", "1"⟩]).2.filter
        (fun c => (c.rowNo, c.field) = (3, "konto"))).length = 1 ∧
    (plannerPlanPatches .firstWins
        [⟨3, "konto", .upperOp, "a", "A", .low, false, "R1", "1"⟩,
         ⟨3, "konto", .upperOp, "a", "A", .low, false, "R1", "1"⟩]).1.filter
        (fun q => locKey q = (3, "konto"))
      = [⟨3, "konto", .upperOp, "a", "A", .low, false, "R1", "1"⟩,
         ⟨3, "konto", .upperOp, "a", "A", .low, false, "R1", "1"⟩] :=
  claim_C9_duplicate_patches_survive _ _ 3 "konto" .firstWins (Or.inl rfl) (by decide)

/-- Witness for C4 (amended) on a concrete patch list. -/
theorem claim_C4_manual_resolution_witness :
    (plannerPlanPatches .manual
        [⟨3, "konto", .upperOp, "a", "A", .low, false, "R1", "1"⟩,
         ⟨3, "konto", .upperOp, "a", "A", .low, false, "R1", "1"⟩]).1
      = (plannerPlanPatches .lastWins
        [⟨3, "konto", .upperOp, "a", "A", .low, false, "R1", "1"⟩,
         ⟨3, "konto", .upperOp, "a", "A", .low, false, "R1", "1"⟩]).1 ∧
    ConflictT.selectedPatch
      ⟨3, "konto",
        [(0, ⟨3, "konto", .upperOp, "a", "A", .low, false, "R1", "1"⟩),
         (1, ⟨3, "konto", .upperOp, "a", "A", .low, false, "R1", "1"⟩)],
        .manual, none⟩ = none :=
  ⟨(claim_C4_manual_resolution _).2.2.1,
   (claim_C4_manual_resolution [⟨3, "konto", .upperOp, "a", "A", .low, false, "R1", "1"⟩,
      ⟨3, "konto", .upperOp, "a", "A", .low, false, "R1", "1"⟩]).1
     _ (by decide)⟩

/-! ## `core/parser/tokenizer.py` : streaming state-machine tokenizer

The character loop of `tokenize_stream` becomes a recursion over the
remaining characters with an explicit state (`fields`, `field_buffer`,
machine state, `line_no`, `record_start_line`); a `\r\n` pair is consumed
in one step with one extra line increment, exactly as the source's
`i += 1; line_no += 1` skip. -/

structure Dialect where
  delimiter : Char := ';'
  quotechar : Char := '"'
deriving DecidableEq, Repr

inductive TokenizerState where
  | fieldStart | inUnquoted | inQuoted | quoteInQuoted
deriving DecidableEq, Repr

structure TokState where
  fields : List String
  buf : List Char
  mode : TokenizerState
  lineNo : Nat
  recStart : Nat
deriving DecidableEq, Repr

/-- Emit a record unless every field is blank (`any(f for f in fields)`). -/
def emitRecord (st : TokState) (ln : Nat) : List (List String × Nat × Nat) :=
  let fields := st.fields ++ [String.mk st.buf]
  if fields.any (fun f => f ≠ "") then [(fields, st.recStart, ln)] else []

def tokAux (d : Dialect) : TokState → List Char → List (List String × Nat × Nat)
  | st, [] =>
    if !st.buf.isEmpty || !st.fields.isEmpty then
      emitRecord st st.lineNo
    else []
  | st, c :: rest =>
    let ln := if c = '\n' then st.lineNo + 1 else st.lineNo
    match st.mode with
    | .fieldStart =>
      if c = d.quotechar then
        tokAux d { st with mode := .inQuoted, lineNo := ln } rest
      else if c = d.delimiter then
        tokAux d { st with fields := st.fields ++ [""],
                           mode := .fieldStart, lineNo := ln } rest
      else if c = '\r' || c = '\n' then
        emitRecord st ln ++
          (if c = '\r' && rest.head? = some '\n' then
             tokAux d ⟨[], [], .fieldStart, ln + 1, ln⟩ rest.tail
           else tokAux d ⟨[], [], .fieldStart, ln, ln⟩ rest)
      else
        tokAux d { st with buf := st.buf ++ [c], mode := .inUnquoted,
                           lineNo := ln } rest
    | .inUnquoted =>
      if c = d.delimiter then
        tokAux d { st with fields := st.fields ++ [String.mk st.buf],
                           buf := [], mode := .fieldStart, lineNo := ln } rest
      else if c = '\r' || c = '\n' then
        emitRecord st ln ++
          (if c = '\r' && rest.head? = some '\n' then
             tokAux d ⟨[], [], .fieldStart, ln + 1, ln⟩ rest.tail
           else tokAux d ⟨[], [], .fieldStart, ln, ln⟩ rest)
      else
        tokAux d { st with buf := st.buf ++ [c], mode := .inUnquoted,
                           lineNo := ln } rest
    | .inQuoted =>
      if c = d.quotechar then
        tokAux d { st with mode := .quoteInQuoted, lineNo := ln } rest
      else
        tokAux d { st with buf := st.buf ++ [c], mode := .inQuoted,
                           lineNo := ln } rest
    | .quoteInQuoted =>
      if c = d.quotechar then
        tokAux d { st with buf := st.buf ++ [c], mode := .inQuoted,
                           lineNo := ln } rest
      else if c = d.delimiter then
        tokAux d { st with fields := st.fields ++ [String.mk st.buf],
                           buf := [], mode := .fieldStart, lineNo := ln } rest
      else if c = '\r' || c = '\n' then
        emitRecord st ln ++
          (if c = '\r' && rest.head? = some '\n' then
             tokAux d ⟨[], [], .fieldStart, ln + 1, ln⟩ rest.tail
           else tokAux d ⟨[], [], .fieldStart, ln, ln⟩ rest)
      else
        tokAux d { st with buf := st.buf ++ [c], mode := .inUnquoted,
                           lineNo := ln } rest
termination_by _ text => text.length
decreasing_by all_goals (simp_wf <;> omega)

/-- `tokenize_stream` (tokenizer.py lines 126-256), a total function: the
tokenizer cannot raise, and an unterminated quote at end-of-input still
yields the accumulated field (the final-record handling in `tokAux`). -/
def tokenizeStream (d : Dialect) (text : List Char) :
    List (List String × Nat × Nat) :=
  tokAux d ⟨[], [], .fieldStart, 1, 1⟩ text


def recordsWellFormed : Nat → List (List String × Nat × Nat) → Bool
  | _, [] => true
  | lo, (_, s, e) :: rest =>
    1 ≤ s && lo ≤ s && s ≤ e && recordsWellFormed e rest

theorem recordsWellFormed_mono {lo lo' : Nat} {l : List (List String × Nat × Nat)}
    (hle : lo ≤ lo') (h : recordsWellFormed lo' l = true) :
    recordsWellFormed lo l = true := by
  cases l with
  | nil => rfl
  | cons r rest =>
    obtain ⟨fs, s, e⟩ := r
    simp only [recordsWellFormed, Bool.and_eq_true, decide_eq_true_eq] at h ⊢
    rcases h with ⟨⟨⟨ha, hb⟩, hc⟩, hd⟩
    exact ⟨⟨⟨ha, Nat.le_trans hle hb⟩, hc⟩, hd⟩

theorem wf_emit_step (st : TokState) (ln : Nat)
    (tail : List (List String × Nat × Nat))
    (h1 : 1 ≤ st.recStart) (h2 : st.recStart ≤ ln)
    (htail : recordsWellFormed ln tail = true) :
    recordsWellFormed st.recStart (emitRecord st ln ++ tail) = true := by
  unfold emitRecord
  dsimp only
  split
  · simp only [List.cons_append, List.nil_append, recordsWellFormed,
      Bool.and_eq_true, decide_eq_true_eq]
    exact ⟨⟨⟨h1, Nat.le_refl _⟩, h2⟩, htail⟩
  · simpa using recordsWellFormed_mono h2 htail


theorem tokAux_wellFormed (d : Dialect) (st : TokState) (text : List Char) :
    1 ≤ st.recStart → st.recStart ≤ st.lineNo →
    recordsWellFormed st.recStart (tokAux d st text) = true := by
  induction st, text using tokAux.induct with
  | d => exact d
  | case1 st hcond =>
    intro h1 h2
    simp only [tokAux, hcond, ite_true, ite_false]
    simpa using wf_emit_step st st.lineNo [] h1 h2 rfl
  | case2 st hcond =>
    intro h1 h2
    simp only [tokAux, hcond, ite_true, ite_false]
    rfl
  | case3 st rest hmode ln ih =>
    intro h1 h2
    have hln : st.lineNo ≤ ln := by unfold ln; split <;> omega
    simp only [tokAux, hmode, ite_true, ite_false]
    exact ih h1 (Nat.le_trans h2 hln)
  | case4 st rest hmode ln hne ih =>
    intro h1 h2
    have hln : st.lineNo ≤ ln := by unfold ln; split <;> omega
    simp only [tokAux, hmode, hne, ite_true, ite_false]
    exact ih h1 (Nat.le_trans h2 hln)
  | case5 st c rest ln hmode hq hd heol ihskip ih =>
    intro h1 h2
    have hln : st.lineNo ≤ ln := by unfold ln; split <;> omega
    have h1' : 1 ≤ ln := by omega
    simp only [tokAux, hmode, hq, hd, heol, ite_true, ite_false]
    apply wf_emit_step st ln _ h1 (Nat.le_trans h2 hln)
    split
    · exact ihskip h1' (Nat.le_succ ln)
    · exact ih h1' (Nat.le_refl ln)
  | case6 st c rest ln hmode hq hd heol ih =>
    intro h1 h2
    have hln : st.lineNo ≤ ln := by unfold ln; split <;> omega
    simp only [tokAux, hmode, hq, hd, heol, ite_true, ite_false]
    exact ih h1 (Nat.le_trans h2 hln)
  | case7 st rest hmode ln ih =>
    intro h1 h2
    have hln : st.lineNo ≤ ln := by unfold ln; split <;> omega
    simp only [tokAux, hmode, ite_true, ite_false]
    exact ih h1 (Nat.le_trans h2 hln)
  | case8 st c rest ln hmode hd heol ihskip ih =>
    intro h1 h2
    have hln : st.lineNo ≤ ln := by unfold ln; split <;> omega
    have h1' : 1 ≤ ln := by omega
    simp only [tokAux, hmode, hd, heol, ite_true, ite_false]
    apply wf_emit_step st ln _ h1 (Nat.le_trans h2 hln)
    split
    · exact ihskip h1' (Nat.le_succ ln)
    · exact ih h1' (Nat.le_refl ln)
  | case9 st c rest ln hmode hd heol ih =>
    intro h1 h2
    have hln : st.lineNo ≤ ln := by unfold ln; split <;> omega
    simp only [tokAux, hmode, hd, heol, ite_true, ite_false]
    exact ih h1 (Nat.le_trans h2 hln)
  | case10 st rest hmode ln ih =>
    intro h1 h2
    have hln : st.lineNo ≤ ln := by unfold ln; split <;> omega
    simp only [tokAux, hmode, ite_true, ite_false]
    exact ih h1 (Nat.le_trans h2 hln)
  | case11 st c rest ln hmode hq ih =>
    intro h1 h2
    have hln : st.lineNo ≤ ln := by unfold ln; split <;> omega
    simp only [tokAux, hmode, hq, ite_true, ite_false]
    exact ih h1 (Nat.le_trans h2 hln)
  | case12 st rest hmode ln ih =>
    intro h1 h2
    have hln : st.lineNo ≤ ln := by unfold ln; split <;> omega
    simp only [tokAux, hmode, ite_true, ite_false]
    exact ih h1 (Nat.le_trans h2 hln)
  | case13 st rest hmode ln hne ih =>
    intro h1 h2
    have hln : st.lineNo ≤ ln := by unfold ln; split <;> omega
    simp only [tokAux, hmode, hne, ite_true, ite_false]
    exact ih h1 (Nat.le_trans h2 hln)
  | case14 st c rest ln hmode hq hd heol ihskip ih =>
    intro h1 h2
    have hln : st.lineNo ≤ ln := by unfold ln; split <;> omega
    have h1' : 1 ≤ ln := by omega
    simp only [tokAux, hmode, hq, hd, heol, ite_true, ite_false]
    apply wf_emit_step st ln _ h1 (Nat.le_trans h2 hln)
    split
    · exact ihskip h1' (Nat.le_succ ln)
    · exact ih h1' (Nat.le_refl ln)
  | case15 st c rest ln hmode hq hd heol ih =>
    intro h1 h2
    have hln : st.lineNo ≤ ln := by unfold ln; split <;> omega
    simp only [tokAux, hmode, hq, hd, heol, ite_true, ite_false]
    exact ih h1 (Nat.le_trans h2 hln)


/-- C3: `tokenize_stream` never raises — it is embedded as a total
function, with unterminated quotes at end-of-input yielding the
accumulated field — and every yielded record satisfies
`end_line >= start_line >= 1` with start lines no smaller than the
previously yielded record's end line (`recordsWellFormed` threads the
previous end line, starting at 1). -/
theorem claim_C3_tokenizer_line_invariants (d : Dialect) (text : List Char) :
    recordsWellFormed 1 (tokenizeStream d text) = true :=
  tokAux_wellFormed d ⟨[], [], .fieldStart, 1, 1⟩ text (Nat.le_refl 1)
    (Nat.le_refl 1)

end DatevLint
namespace DatevLint

/-! ## row factory -/

/-- `BookingRow` (parser/models.py lines 255-294), keeping the fields the
claims touch; `fields_typed` (validation-only) and the truncated SHA-256
`checksum` are not modelled — no claim depends on their values. -/
structure BookingRow where
  rowNo : Nat
  lineSpan : Nat × Nat
  fieldsRaw : List (String × String)
  rawTokens : List String
deriving DecidableEq, Repr

/-- The row loop of `parse_bytes.row_factory` (parser/__init__.py lines
196-237) over the record stream (header and column records already
consumed): blank records are skipped but still advance the row counter;
after each parsed row the counter is checked against the 99,999-row cap
and a WARN `DVL-ROW-001` ends the stream.  `parseRow` abstracts
`parse_row` applied to the parse's column mapping and header. -/
def rowLoop
    (parseRow : List String → Nat → Nat × Nat → Option BookingRow × List ParserError) :
    Nat → List (List String × Nat × Nat) → List (ParserError ⊕ BookingRow)
  | _, [] => []
  | rowNo, (tokens, startLine, endLine) :: rest =>
    if !(tokens.any (fun t => pyStrip t ≠ "")) then
      rowLoop parseRow (rowNo + 1) rest
    else
      let pr := parseRow tokens rowNo (startLine, endLine)
      let out := pr.2.map Sum.inl ++
        (match pr.1 with
         | some row => [Sum.inr row]
         | none => [])
      if rowNo + 1 > 99999 + 2 then
        out ++ [Sum.inl ⟨"DVL-ROW-001", .warn, some (rowNo + 1)⟩]
      else
        out ++ rowLoop parseRow (rowNo + 1) rest

/-- The streaming row iterator of `parse_bytes`: re-tokenize, drop the
header and column records, run the row loop from row number 3. -/
def rowFactory
    (parseRow : List String → Nat → Nat × Nat → Option BookingRow × List ParserError)
    (d : Dialect) (text : List Char) : List (ParserError ⊕ BookingRow) :=
  rowLoop parseRow 3 ((tokenizeStream d text).drop 2)

/-- `parse_row` (rows.py lines 20-93) specialized to a column mapping with
no entries: the canonical-field loop is vacuous, no typed conversion runs,
and `BookingRow` construction always succeeds. -/
def parseRowEmptyColumns (tokens : List String) (rowNo : Nat)
    (lineSpan : Nat × Nat) : Option BookingRow × List ParserError :=
  (some ⟨rowNo, lineSpan, [], tokens⟩, [])

def isRowLimit : ParserError ⊕ BookingRow → Bool
  | .inl e => e.code = "DVL-ROW-001"
  | .inr _ => false

/-- The first row-limit warning, if any, is the stream's last element. -/
def warnOnlyAtEnd : List (ParserError ⊕ BookingRow) → Bool
  | [] => true
  | x :: rest => if isRowLimit x then rest.isEmpty else warnOnlyAtEnd rest

theorem warnOnlyAtEnd_append_of_none {l t : List (ParserError ⊕ BookingRow)}
    (hl : ∀ x ∈ l, isRowLimit x = false) :
    warnOnlyAtEnd (l ++ t) = warnOnlyAtEnd t := by
  induction l with
  | nil => rfl
  | cons x xs ih =>
    have hx := hl x (List.mem_cons_self x xs)
    rw [List.cons_append]
    conv_lhs => rw [warnOnlyAtEnd]
    rw [if_neg (by simp [hx])]
    exact ih (fun y hy => hl y (List.mem_cons_of_mem x hy))

theorem warnOnlyAtEnd_countP {l : List (ParserError ⊕ BookingRow)}
    (h : warnOnlyAtEnd l = true) : l.countP isRowLimit ≤ 1 := by
  induction l with
  | nil => simp
  | cons x xs ih =>
    unfold warnOnlyAtEnd at h
    by_cases hx : isRowLimit x = true
    · rw [if_pos hx] at h
      rw [List.isEmpty_iff.mp h]
      simp [List.countP_cons, hx]
    · rw [if_neg hx] at h
      have hx' : isRowLimit x = false := by simpa using hx
      simp [List.countP_cons, hx', ih h]

end DatevLint
namespace DatevLint

theorem countP_isRight_map_inl (l : List ParserError) :
    (l.map (Sum.inl : ParserError → ParserError ⊕ BookingRow)).countP
      Sum.isRight = 0 := by
  induction l with
  | nil => rfl
  | cons x xs ih => simp [List.countP_cons, ih]

theorem countP_isRight_chunk (o : Option BookingRow) :
    (match o with
     | some row => [Sum.inr row]
     | none => ([] : List (ParserError ⊕ BookingRow))).countP Sum.isRight ≤ 1 := by
  cases o <;> simp

/-- Row-count invariant of the row loop: starting at row number `rowNo`,
at most `max 1 (100002 - rowNo)` `BookingRow` values are yielded before
the cap check stops the stream. -/
theorem rowLoop_rows_le
    (parseRow : List String → Nat → Nat × Nat → Option BookingRow × List ParserError) :
    ∀ (records : List (List String × Nat × Nat)) (rowNo : Nat),
    (rowLoop parseRow rowNo records).countP Sum.isRight ≤
      max 1 (100002 - rowNo) := by
  intro records
  induction records with
  | nil => intro rowNo; simp [rowLoop]
  | cons r rest ih =>
    intro rowNo
    obtain ⟨tokens, startLine, endLine⟩ := r
    by_cases hb : (!(tokens.any (fun t => pyStrip t ≠ ""))) = true
    · rw [rowLoop, if_pos hb]
      exact le_trans (ih (rowNo + 1)) (max_le_max (le_refl 1) (by omega))
    · simp only [rowLoop, if_neg hb]
      split
      · simp only [List.countP_append,
          countP_isRight_map_inl (parseRow tokens rowNo (startLine, endLine)).2]
        have h2 := countP_isRight_chunk (parseRow tokens rowNo (startLine, endLine)).1
        have hm : 1 ≤ max 1 (100002 - rowNo) := le_max_left 1 _
        have h3 : ([Sum.inl (⟨"DVL-ROW-001", .warn, some (rowNo + 1)⟩ : ParserError)] :
            List (ParserError ⊕ BookingRow)).countP Sum.isRight = 0 := by simp
        omega
      · rename_i hcap
        simp only [List.countP_append,
          countP_isRight_map_inl (parseRow tokens rowNo (startLine, endLine)).2]
        have h2 := countP_isRight_chunk (parseRow tokens rowNo (startLine, endLine)).1
        have h4 := ih (rowNo + 1)
        have hmax1 : max 1 (100002 - (rowNo + 1)) = 100002 - (rowNo + 1) :=
          max_eq_right (by omega)
        have hmax2 : max 1 (100002 - rowNo) = 100002 - rowNo :=
          max_eq_right (by omega)
        omega

/-- In the row loop, a `DVL-ROW-001` item can only be the final element,
provided `parse_row` itself never emits that code. -/
theorem rowLoop_warnOnlyAtEnd
    (parseRow : List String → Nat → Nat × Nat → Option BookingRow × List ParserError)
    (hclean : ∀ t n s, ∀ e ∈ (parseRow t n s).2, e.code ≠ "DVL-ROW-001") :
    ∀ (records : List (List String × Nat × Nat)) (rowNo : Nat),
    warnOnlyAtEnd (rowLoop parseRow rowNo records) = true := by
  intro records
  induction records with
  | nil => intro rowNo; rfl
  | cons r rest ih =>
    intro rowNo
    obtain ⟨tokens, startLine, endLine⟩ := r
    by_cases hb : (!(tokens.any (fun t => pyStrip t ≠ ""))) = true
    · rw [rowLoop, if_pos hb]
      exact ih (rowNo + 1)
    · simp only [rowLoop, if_neg hb]
      have hout : ∀ x ∈ ((parseRow tokens rowNo (startLine, endLine)).2.map Sum.inl ++
          (match (parseRow tokens rowNo (startLine, endLine)).1 with
           | some row => [Sum.inr row]
           | none => ([] : List (ParserError ⊕ BookingRow)))),
          isRowLimit x = false := by
        intro x hx
        rcases List.mem_append.mp hx with hx | hx
        · obtain ⟨err, herr, rfl⟩ := List.mem_map.mp hx
          simpa [isRowLimit] using hclean _ _ _ err herr
        · cases hopt : (parseRow tokens rowNo (startLine, endLine)).1 with
          | none => rw [hopt] at hx; simp at hx
          | some row =>
            rw [hopt] at hx
            simp only [List.mem_singleton] at hx
            subst hx
            rfl
      split
      · rw [warnOnlyAtEnd_append_of_none hout]
        simp [warnOnlyAtEnd]
      · rw [warnOnlyAtEnd_append_of_none hout]
        exact ih (rowNo + 1)

end DatevLint
namespace DatevLint

/-- **C8** (amended): for every dialect and input text, and every
`parse_row` instantiation that never itself emits `DVL-ROW-001`, the row
iterator of `parse_bytes` yields at most 99,999 `BookingRow` values; it
yields at most one `DVL-ROW-001` warning, and any such warning is the
stream's final element.  (The original claim's bound 3..100,001 on row
numbers, and the absence of the warning whenever the data rows fit the
cap, are refuted separately: blank records advance the row counter
without the cap check.) -/
theorem claim_C8_row_cap
    (parseRow : List String → Nat → Nat × Nat → Option BookingRow × List ParserError)
    (d : Dialect) (text : List Char)
    (hclean : ∀ t n s, ∀ e ∈ (parseRow t n s).2, e.code ≠ "DVL-ROW-001") :
    (rowFactory parseRow d text).countP Sum.isRight ≤ 99999 ∧
    warnOnlyAtEnd (rowFactory parseRow d text) = true ∧
    (rowFactory parseRow d text).countP isRowLimit ≤ 1 := by
  refine ⟨?_, ?_, ?_⟩
  · have h := rowLoop_rows_le parseRow ((tokenizeStream d text).drop 2) 3
    have hm : max 1 (100002 - 3) = 99999 := by norm_num
    rw [hm] at h
    exact h
  · exact rowLoop_warnOnlyAtEnd parseRow hclean _ 3
  · exact warnOnlyAtEnd_countP (rowLoop_warnOnlyAtEnd parseRow hclean _ 3)

theorem claim_C8_row_cap_witness :
    (rowFactory parseRowEmptyColumns {} "100;200\r300;400\r500;600\r".data).countP
      Sum.isRight ≤ 99999 ∧
    warnOnlyAtEnd
      (rowFactory parseRowEmptyColumns {} "100;200\r300;400\r500;600\r".data) = true ∧
    (rowFactory parseRowEmptyColumns {} "100;200\r300;400\r500;600\r".data).countP
      isRowLimit ≤ 1 :=
  claim_C8_row_cap parseRowEmptyColumns {} "100;200\r300;400\r500;600\r".data
    (fun _ _ _ e he => absurd he (List.not_mem_nil e))

end DatevLint
namespace DatevLint

/-- One single-character record terminated by a bare `\r`: the tokenizer
emits the one-field record and restarts on the same line number. -/
theorem tokAux_char_cr (c : Char) (l : Nat) (rest : List Char)
    (hq : ¬ c = '"') (hd : ¬ c = ';') (hr : ¬ c = '\r') (hn : ¬ c = '\n')
    (hne : ¬ String.mk [c] = "") (hrest : ¬ rest.head? = some '\n') :
    tokAux {} ⟨[], [], .fieldStart, l, l⟩ (c :: '\r' :: rest) =
      ([String.mk [c]], l, l) :: tokAux {} ⟨[], [], .fieldStart, l, l⟩ rest := by
  conv_lhs => rw [tokAux]
  simp [hq, hd, hr, hn]
  conv_lhs => rw [tokAux]
  simp [emitRecord, hne, hrest]

end DatevLint
namespace DatevLint

theorem rowLoop_replicate_blank
    (parseRow : List String → Nat → Nat × Nat → Option BookingRow × List ParserError)
    (rest : List (List String × Nat × Nat)) :
    ∀ (n rowNo : Nat),
    rowLoop parseRow rowNo (List.replicate n ([" "], 1, 1) ++ rest) =
      rowLoop parseRow (rowNo + n) rest := by
  intro n
  induction n with
  | zero => intro rowNo; simp
  | succ n ih =>
    intro rowNo
    rw [List.replicate_succ, List.cons_append, rowLoop, if_pos (by decide),
      ih (rowNo + 1)]
    congr 1
    omega

theorem flatten_replicate_head (n : Nat) (rest : List Char) :
    (List.flatten (List.replicate n [' ', '\r']) ++ rest).head? =
      if n = 0 then rest.head? else some ' ' := by
  cases n with
  | zero => simp
  | succ n => simp [List.replicate_succ]

theorem tokAux_blank_replicate (l : Nat) (rest : List Char)
    (hrest : ¬ rest.head? = some '\n') :
    ∀ n, tokAux {} ⟨[], [], .fieldStart, l, l⟩
        (List.flatten (List.replicate n [' ', '\r']) ++ rest) =
      List.replicate n ([" "], l, l) ++
        tokAux {} ⟨[], [], .fieldStart, l, l⟩ rest := by
  intro n
  induction n with
  | zero => simp
  | succ n ih =>
    have hh : ¬ (List.flatten (List.replicate n [' ', '\r']) ++ rest).head? =
        some '\n' := by
      rw [flatten_replicate_head]
      split
      · exact hrest
      · simp
    rw [List.replicate_succ, List.flatten_cons]
    simp only [List.cons_append, List.nil_append, List.append_assoc]
    rw [tokAux_char_cr ' ' l (List.flatten (List.replicate n [' ', '\r']) ++ rest)
      (by decide) (by decide) (by decide) (by decide) (by decide) hh]
    rw [ih, List.replicate_succ]
    rfl

/-- The counterexample input: a header record, a column record, 99,999
blank data records (one space each) and a single real data record. -/
def c8Text : List Char :=
  ['h', '\r', 'c', '\r'] ++ List.flatten (List.replicate 99999 [' ', '\r']) ++
    ['7', '\r']

theorem tokenizeStream_c8Text :
    tokenizeStream {} c8Text =
      (["h"], 1, 1) :: (["c"], 1, 1) ::
        (List.replicate 99999 ([" "], 1, 1) ++ [(["7"], 1, 1)]) := by
  have h7 : tokAux {} ⟨[], [], .fieldStart, 1, 1⟩ ['7', '\r'] = [(["7"], 1, 1)] := by
    rw [tokAux_char_cr '7' 1 [] (by decide) (by decide) (by decide) (by decide)
      (by decide) (by simp)]
    simp [tokAux]
  unfold tokenizeStream c8Text
  simp only [List.append_assoc, List.cons_append, List.nil_append]
  rw [tokAux_char_cr 'h' 1
    ('c' :: '\r' :: (List.flatten (List.replicate 99999 [' ', '\r']) ++ ['7', '\r']))
    (by decide) (by decide) (by decide) (by decide) (by decide)
    (by rw [List.head?_cons]; decide)]
  rw [tokAux_char_cr 'c' 1
    (List.flatten (List.replicate 99999 [' ', '\r']) ++ ['7', '\r'])
    (by decide) (by decide) (by decide) (by decide) (by decide)
    (by rw [flatten_replicate_head]; decide)]
  rw [tokAux_blank_replicate 1 ['7', '\r'] (by decide) 99999, h7]

theorem countP_replicate_zero {α : Type} (p : α → Bool) (a : α)
    (hp : p a = false) : ∀ n, (List.replicate n a).countP p = 0 := by
  intro n
  induction n with
  | zero => rfl
  | succ n ih => simp [List.replicate_succ, List.countP_cons, hp, ih]

end DatevLint
namespace DatevLint

/-- **C8 counterexample**: `c8Text` has ONE non-blank data record (well
within the cap), yet the row iterator yields that row with row number
100002 — outside the claimed range 3..100,001 — followed by the
`DVL-ROW-001` warning, because the 99,999 blank records advanced the row
counter without being emitted or cap-checked. -/
theorem claim_C8_counterexample :
    rowFactory parseRowEmptyColumns {} c8Text =
      [Sum.inr ⟨100002, (1, 1), [], ["7"]⟩,
       Sum.inl ⟨"DVL-ROW-001", .warn, some 100003⟩] ∧
    ((tokenizeStream {} c8Text).drop 2).countP
      (fun r => r.1.any (fun t => pyStrip t ≠ "")) = 1 := by
  constructor
  · rw [rowFactory, tokenizeStream_c8Text]
    show rowLoop _ 3 (List.replicate 99999 ([" "], 1, 1) ++ [(["7"], 1, 1)]) = _
    rw [rowLoop_replicate_blank]
    decide
  · rw [tokenizeStream_c8Text]
    show (List.replicate 99999 ([" "], 1, 1) ++ [(["7"], 1, 1)]).countP _ = 1
    rw [List.countP_append, countP_replicate_zero _ _ (by decide)]
    decide

end DatevLint
